import Mathlib

/-!
# Verification of the ffprobe/fftextdata text (de)muxers

Shallow embedding of `libavformat/ffprobedec.c`, `libavformat/ffprobeenc.c`,
`libavformat/fftextdatadec.c` and the collaborator primitives they use
(byte-stream reader, `sscanf` patterns, `av_parse_time`, `av_rescale_q`,
base64), together with theorems settling the frozen claims about them.

The byte stream is modelled as a `List Char` with a read position (`Nat`);
payload bytes are `Nat` values `< 256`.  Fallible or looping code takes an
explicit fuel argument and returns `Option`/`Except`-shaped results; all
definitions are executable.
-/

/-! ## Error codes and sentinels (libavutil/error.h, avutil.h) -/

def AVERROR_EOF : Int := -541478725
def AVERROR_INVALIDDATA : Int := -1094995529
def AVERROR_EXPERIMENTAL : Int := -733130664
def AVERROR_BUG : Int := -558323010
def AVERROR_EINVAL : Int := -22
def AVERROR_ENOMEM : Int := -12

/-- `AV_NOPTS_VALUE = INT64_MIN`, the "unset" sentinel for pts/dts. -/
def AV_NOPTS_VALUE : Int := -9223372036854775808

def FF_COMPLIANCE_EXPERIMENTAL : Int := -2

def SEC_NONE : Int := 0
def SEC_FORMAT : Int := 1
def SEC_STREAM : Int := 2
def SEC_PACKET : Int := 3

/-! ## Character classification helpers -/

/-- `isspace` set used by `scanf` whitespace skipping. -/
def isWS (c : Char) : Bool :=
  c = ' ' || c = '\t' || c = '\n' || c = '\x0b' || c = '\x0c' || c = '\r'

/-- Hex digit test exactly as in `read_data` of ffprobedec.c:
`(*cur - '0') < 10 || (*cur - 'a') < 6 || (*cur - 'A') < 6` (unsigned). -/
def isHexDigitC (c : Char) : Bool :=
  ('0' ≤ c && c ≤ '9') || ('a' ≤ c && c ≤ 'f') || ('A' ≤ c && c ≤ 'F')

def isOctDigitC (c : Char) : Bool := '0' ≤ c && c ≤ '7'

def hexDigitVal (c : Char) : Nat :=
  if '0' ≤ c && c ≤ '9' then c.toNat - 48
  else if 'a' ≤ c && c ≤ 'f' then c.toNat - 87
  else c.toNat - 55

def digitsVal (ds : List Char) : Nat :=
  ds.foldl (fun a c => 10 * a + (c.toNat - 48)) 0

def hexDigitsVal (ds : List Char) : Nat :=
  ds.foldl (fun a c => 16 * a + hexDigitVal c) 0

def octDigitsVal (ds : List Char) : Nat :=
  ds.foldl (fun a c => 8 * a + (c.toNat - 48)) 0

/-- Decimal printer used to build concrete inputs (value `n` in base 10). -/
def digitChar (n : Nat) : Char :=
  match n with
  | 0 => '0' | 1 => '1' | 2 => '2' | 3 => '3' | 4 => '4'
  | 5 => '5' | 6 => '6' | 7 => '7' | 8 => '8' | _ => '9'

def digitsOfAux : Nat → Nat → List Char
  | 0, _ => []
  | fuel+1, n =>
    if n < 10 then [digitChar n]
    else digitsOfAux fuel (n / 10) ++ [digitChar (n % 10)]

def digitsOf (n : Nat) : List Char := digitsOfAux (n + 1) n

/-! ## `sscanf` model

Modelled from the spec: the content lines are parsed by C `sscanf` with the
fixed patterns appearing in the source.  A scan either succeeds with the
first converted value (`ok`), fails to match (`fail`, C return value `0`),
or hits the end of the string before the first conversion completes
(`eof`, C return value `EOF = -1`).  The distinction matters because
`read_section_packet` guards `stream_index` with `if (sscanf(...))`, which
is also taken on `EOF`. -/

inductive ScanRes (α : Type) where
  | eof : ScanRes α
  | fail : ScanRes α
  | ok (v : α) : ScanRes α
deriving DecidableEq, Repr

/-- Match a literal format prefix. Reaching the end of the input mid-literal
is an input failure (`eof`); a mismatching character is a matching failure. -/
def matchLit : List Char → List Char → ScanRes (List Char)
  | [], s => .ok s
  | _ :: _, [] => .eof
  | c :: cs, x :: xs => if x = c then matchLit cs xs else .fail

/-- `%d`: skip whitespace, optional sign, at least one decimal digit. -/
def scanDecAfter (s : List Char) : ScanRes (Int × List Char) :=
  let s1 := s.dropWhile isWS
  match s1 with
  | [] => .eof
  | c :: rest =>
    let neg := c = '-'
    let s2 := if c = '-' || c = '+' then rest else s1
    match s2 with
    | [] => .eof
    | _ =>
      let ds := s2.takeWhile Char.isDigit
      if ds.isEmpty then .fail
      else .ok (if neg then -(digitsVal ds : Int) else (digitsVal ds : Int),
                s2.drop ds.length)

/-- `%li` (`SCNi64`): like `%d` but with `strtol` base-0 semantics
(`0x` hex, leading `0` octal, else decimal). -/
def scanI64After (s : List Char) : ScanRes (Int × List Char) :=
  let s1 := s.dropWhile isWS
  match s1 with
  | [] => .eof
  | c :: rest =>
    let neg := c = '-'
    let s2 := if c = '-' || c = '+' then rest else s1
    match s2 with
    | [] => .eof
    | '0' :: 'x' :: r =>
      let ds := r.takeWhile isHexDigitC
      if ds.isEmpty then .fail
      else .ok (if neg then -(hexDigitsVal ds : Int) else (hexDigitsVal ds : Int),
                r.drop ds.length)
    | '0' :: 'X' :: r =>
      let ds := r.takeWhile isHexDigitC
      if ds.isEmpty then .fail
      else .ok (if neg then -(hexDigitsVal ds : Int) else (hexDigitsVal ds : Int),
                r.drop ds.length)
    | '0' :: r =>
      let ds := r.takeWhile isOctDigitC
      .ok (if neg then -(octDigitsVal ds : Int) else (octDigitsVal ds : Int),
           r.drop ds.length)
    | _ =>
      let ds := s2.takeWhile Char.isDigit
      if ds.isEmpty then .fail
      else .ok (if neg then -(digitsVal ds : Int) else (digitsVal ds : Int),
                s2.drop ds.length)

/-- `%s`: skip whitespace, then a non-empty run of non-whitespace. -/
def scanStrAfter (s : List Char) : ScanRes (List Char) :=
  let s1 := s.dropWhile isWS
  match s1 with
  | [] => .eof
  | _ => .ok (s1.takeWhile (fun c => !isWS c))

/-- `%c`: the next character, with no whitespace skipping. -/
def scanCharAfter (s : List Char) : ScanRes Char :=
  match s with
  | [] => .eof
  | c :: _ => .ok c

def scanIntD (lit : List Char) (line : List Char) : ScanRes Int :=
  match matchLit lit line with
  | .eof => .eof
  | .fail => .fail
  | .ok rest =>
    match scanDecAfter rest with
    | .eof => .eof
    | .fail => .fail
    | .ok (v, _) => .ok v

def scanI64 (lit : List Char) (line : List Char) : ScanRes Int :=
  match matchLit lit line with
  | .eof => .eof
  | .fail => .fail
  | .ok rest =>
    match scanI64After rest with
    | .eof => .eof
    | .fail => .fail
    | .ok (v, _) => .ok v

def scanStr (lit : List Char) (line : List Char) : ScanRes (List Char) :=
  match matchLit lit line with
  | .eof => .eof
  | .fail => .fail
  | .ok rest => scanStrAfter rest

def scanChar (lit : List Char) (line : List Char) : ScanRes Char :=
  match matchLit lit line with
  | .eof => .eof
  | .fail => .fail
  | .ok rest => scanCharAfter rest

/-- `sscanf(buf, "time_base=%d/%d", ...) >= 2`: both conversions must land,
with the literal `/` matched directly after the first number's digits. -/
def scanRatio (lit : List Char) (line : List Char) : Option (Int × Int) :=
  match matchLit lit line with
  | .eof => none
  | .fail => none
  | .ok rest =>
    match scanDecAfter rest with
    | .eof => none
    | .fail => none
    | .ok (v1, r1) =>
      match r1 with
      | '/' :: r2 =>
        match scanDecAfter r2 with
        | .ok (v2, _) => some (v1, v2)
        | _ => none
      | _ => none

/-! ## Timestamp Normalizer collaborator -/

def splitCol : List Char → List (List Char)
  | [] => [[]]
  | c :: r =>
    match splitCol r with
    | [] => [[c]]
    | h :: t => if c = ':' then [] :: h :: t else (c :: h) :: t

/-- Pad (or truncate) a fraction-digit list to exactly six digits. -/
def fracSix (fr : List Char) : List Char :=
  (fr.take 6) ++ List.replicate (6 - fr.length) '0'

/-- `SS[.ffffff]` at microsecond resolution. -/
def parseSecFrac (l : List Char) : Option Nat :=
  let ip := l.takeWhile Char.isDigit
  let rest := l.drop ip.length
  match rest with
  | [] => if ip.isEmpty then none else some (digitsVal ip * 1000000)
  | '.' :: fr =>
    if ip.isEmpty && fr.isEmpty then none
    else if fr.all Char.isDigit then
      some (digitsVal ip * 1000000 + digitsVal (fracSix fr))
    else none
  | _ => none

/-- Modelled from the spec: the Timestamp Normalizer's human-time parser
(`av_parse_time` in duration mode, a collaborator outside src/): accepts
`[-][[HH:]MM:]SS[.ffffff]` and bare decimal seconds, at microsecond
resolution.  Returns the microsecond count, or `none` for a parse failure
(in which case the C function returns a negative error code). -/
def parseTime (s : List Char) : Option Int :=
  let (neg, body) :=
    match s with
    | '-' :: r => (true, r)
    | _ => (false, s)
  let parts := splitCol body
  let us? : Option Nat :=
    match parts with
    | [ss] => parseSecFrac ss
    | [mm, ss] =>
      if mm.isEmpty || !mm.all Char.isDigit then none
      else (parseSecFrac ss).map (fun u => digitsVal mm * 60000000 + u)
    | [hh, mm, ss] =>
      if hh.isEmpty || !hh.all Char.isDigit || mm.isEmpty || !mm.all Char.isDigit
      then none
      else (parseSecFrac ss).map
        (fun u => (digitsVal hh * 60 + digitsVal mm) * 60000000 + u)
    | _ => none
  us?.map (fun u => if neg then -(u : Int) else (u : Int))

/-- `av_rescale_rnd(a, b, c, AV_ROUND_NEAR_INF)`: `a*b/c` rounded to the
nearest integer, ties away from zero; `INT64_MIN` on a non-positive
divisor, as in libavutil/mathematics.c. -/
def avRescaleRnd (a b c : Int) : Int :=
  if c ≤ 0 || b < 0 then AV_NOPTS_VALUE
  else if 0 ≤ a then (a * b + c / 2) / c
  else -(((-a) * b + c / 2) / c)

/-- `av_rescale_q(a, bq, cq)` with the default near-inf rounding. -/
def avRescaleQ (a bn bd cn cd : Int) : Int :=
  avRescaleRnd a (bn * cd) (bd * cn)

/-! ## Base64 collaborator (libavutil/base64.c), used by fftextdata -/

def b64v (c : Char) : Option Nat :=
  if 'A' ≤ c && c ≤ 'Z' then some (c.toNat - 65)
  else if 'a' ≤ c && c ≤ 'z' then some (c.toNat - 71)
  else if '0' ≤ c && c ≤ '9' then some (c.toNat + 4)
  else if c = '+' then some 62
  else if c = '/' then some 63
  else none

/-- Modelled from the spec: the base64 sub-codec's decoder (collaborator
outside src/): standard alphabet, stops at `=`, any other invalid
character is a failure. -/
def b64Loop : List Char → Nat → Nat → List Nat → Option (List Nat)
  | [], _, _, acc => some acc.reverse
  | c :: r, buf, bits, acc =>
    if c = '=' then some acc.reverse
    else
      match b64v c with
      | none => none
      | some v =>
        let buf2 := buf * 64 + v
        let bits2 := bits + 6
        if bits2 ≥ 8 then
          b64Loop r buf2 (bits2 - 8) ((buf2 / 2 ^ (bits2 - 8) % 256) :: acc)
        else b64Loop r buf2 bits2 acc

def avBase64Decode (s : List Char) : Option (List Nat) := b64Loop s 0 0 []

/-! ## Data model -/

/-- Codec registry entry (`AVCodecDescriptor`): identifier, name and the
media-type string produced by `av_get_media_type_string`. -/
structure AVCodecDescriptor where
  cid : Nat
  cname : String
  ctype : String
deriving DecidableEq, Repr

/-- Modelled from the spec: the codec-name ⇄ codec-identifier registry
collaborator, giving lookup-by-name and lookup-by-identifier. -/
structure Registry where
  byName : String → Option AVCodecDescriptor
  byId : Nat → Option AVCodecDescriptor

/-- The decoder-visible fields of an `AVStream` created by
`avformat_new_stream` (a collaborator): codec unset, default time base,
no extradata. -/
structure StreamDesc where
  codec : Option AVCodecDescriptor := none
  tbNum : Int := 0
  tbDen : Int := 1
  extradata : Option (List Nat) := none
deriving DecidableEq, Repr

def newStream : StreamDesc := {}

def updStream (ss : List StreamDesc) (i : Nat) (f : StreamDesc → StreamDesc) :
    List StreamDesc :=
  ss.set i (f ((ss.get? i).getD {}))

/-- Combined demuxer state: the `FFprobeContext` fields (`section`,
accumulation buffer `data`, `packet_nb`), the `AVFormatContext` stream
table and `AVFMTCTX_NOHEADER` flag, and the read position of the
byte-stream collaborator. -/
structure DecSt where
  sec : Int := 0
  dataBuf : List Nat := []
  packetNb : Int := 0
  streams : List StreamDesc := []
  noheader : Bool := false
  pos : Nat := 0
deriving DecidableEq, Repr

/-- A decoded packet as handed to the caller. -/
structure Packet where
  streamIndex : Int
  pts : Int
  dts : Int
  duration : Int
  flags : Nat
  payload : List Nat
  psize : Int
  ppos : Int
deriving DecidableEq, Repr

/-! ## Line Reader collaborator -/

def LINE_BUFFER_SIZE : Nat := 4096

/-- The characters of one line, up to and including the first newline
(everything when no newline remains). -/
def takeLine : List Char → List Char
  | [] => []
  | c :: cs => if c = '\n' then ['\n'] else c :: takeLine cs

/-- Modelled from the spec: the Line Reader collaborator (`ff_get_line` /
`ff_get_line2`, outside src/): reads one newline-terminated line into a
bounded buffer — including the terminating newline, as pinned down by
`read_section_start` in src/ comparing the tail of the buffer against the
two-character string `]` + newline — and reports the number of stored bytes
and the full length read, so over-length lines are a distinct condition.
Returns `(stored, readlen, newPos)`; the C return value is
`stored.length`. -/
def getLine2 (input : List Char) (pos : Nat) : List Char × Nat × Nat :=
  let line := takeLine (input.drop pos)
  (line.take (LINE_BUFFER_SIZE - 1), line.length, pos + line.length)

/-! ## Section tokenizer and line reading (ffprobedec.c) -/

/-- Result of `read_section_line`: a negative error, the end of the section
(C return `0`, with the raw buffer still holding the close-marker line), or
a content line with its trailing newline stripped (C return `1`). -/
inductive LineRes where
  | err (code : Int)
  | close (buf : List Char)
  | content (buf : List Char)
deriving DecidableEq, Repr

def stripNL (l : List Char) : List Char :=
  if l.getLast? = some '\n' then l.dropLast else l

def isCloseMarker (l : List Char) : Bool :=
  match l with
  | c1 :: c2 :: _ => c1 = '[' && c2 = '/'
  | _ => false

def sectionOfStored (stored : List Char) : Int :=
  if stored = "[FORMAT]\n".toList then SEC_FORMAT
  else if stored = "[STREAM]\n".toList then SEC_STREAM
  else if stored = "[PACKET]\n".toList then SEC_PACKET
  else SEC_NONE

/-- `read_section_start`: read a line; end of stream is `AVERROR_EOF`; a
line that is exactly `[FORMAT]`, `[STREAM]` or `[PACKET]` selects that
section (updating `FFprobeContext.section`), anything else is `SEC_NONE`. -/
def readSectionStart (input : List Char) (d : DecSt) : Int × DecSt :=
  let (stored, _, pos2) := getLine2 input d.pos
  let d2 := {d with pos := pos2}
  if stored.isEmpty then (AVERROR_EOF, d2)
  else
    let s := sectionOfStored stored
    if s = SEC_NONE then (SEC_NONE, d2)
    else (s, {d2 with sec := s})

/-- `read_section_line`: empty read means an unterminated section
(`AVERROR_INVALIDDATA`); an over-length line is `AVERROR(EINVAL)`; any line
beginning with `[/` closes the section (name not inspected further);
otherwise the content line is returned with its newline stripped. -/
def readSectionLine (input : List Char) (d : DecSt) : LineRes × DecSt :=
  let (stored, readlen, pos2) := getLine2 input d.pos
  let d2 := {d with pos := pos2}
  if stored.isEmpty then (.err AVERROR_INVALIDDATA, d2)
  else if stored.length < readlen then (.err AVERROR_EINVAL, d2)
  else if isCloseMarker stored then (.close stored, {d2 with sec := 0})
  else (.content (stripNL stored), d2)

/-! ## Hexadecimal payload decoding (`read_data` in ffprobedec.c) -/

/-- One content line of a hex block: skip spaces, then greedy groups of at
most two hex digits (`sscanf(" %02x")`); any other character is invalid.
Returns the bytes decoded before any error together with a success flag
(the C code appends byte by byte and aborts mid-line). -/
def hexScanLine : List Char → List Nat × Bool
  | [] => ([], true)
  | ' ' :: cs => hexScanLine cs
  | c :: cs =>
    if !isHexDigitC c then ([], false)
    else
      match cs with
      | [] => ([hexDigitVal c], true)
      | c2 :: cs2 =>
        if isHexDigitC c2 then
          let r := hexScanLine cs2
          ((16 * hexDigitVal c + hexDigitVal c2) :: r.1, r.2)
        else if c2 = ' ' then
          let r := hexScanLine cs2
          (hexDigitVal c :: r.1, r.2)
        else ([hexDigitVal c], false)

/-- The line loop of `read_data`: consume content lines into the
accumulation buffer until a blank line (`ok` with buffer `[]`) or the
section close marker (`ok` with the raw marker line). -/
def readDataLoop (input : List Char) :
    Nat → DecSt → Option (Except (Int × DecSt) (DecSt × List Char))
  | 0, _ => none
  | fuel+1, d =>
    match readSectionLine input d with
    | (.err e, d2) => some (.error (e, d2))
    | (.close buf, d2) => some (.ok (d2, buf))
    | (.content buf, d2) =>
      if buf.isEmpty then some (.ok (d2, []))
      else
        let r := hexScanLine buf
        let d3 := {d2 with dataBuf := d2.dataBuf ++ r.1}
        if r.2 then readDataLoop input fuel d3
        else some (.error (AVERROR_INVALIDDATA, d3))

def packetCloseLit : List Char := "[/PACKET".toList

/-- `read_data`: a non-empty accumulation buffer at entry is an error
("called at most once per section"); after the loop, if the terminating
line was the packet close marker the read position is rewound by
`strlen(buf) + 1` (the stored line still contains its newline).  Returns
the final size (`ffp->data.len`); allocation failure (`ENOMEM`) does not
arise in the model's unbounded buffer. -/
def readData (input : List Char) (fuel : Nat) (d : DecSt) :
    Option (Except (Int × DecSt) (DecSt × Int)) :=
  if !d.dataBuf.isEmpty then some (.error (AVERROR_INVALIDDATA, d))
  else
    match readDataLoop input fuel d with
    | none => none
    | some (.error e) => some (.error e)
    | some (.ok (d2, buf)) =>
      let d3 := if packetCloseLit.isPrefixOf buf
                then {d2 with pos := d2.pos - (buf.length + 1)} else d2
      some (.ok (d3, (d3.dataBuf.length : Int)))

/-! ## Section readers -/

def nbStreamsLit : List Char := "nb_streams=".toList
def indexLit : List Char := "index=".toList
def codecNameLit : List Char := "codec_name=".toList
def extradataLit : List Char := "extradata=".toList
def timeBaseLit : List Char := "time_base=".toList
def streamIndexLit : List Char := "stream_index=".toList
def ptsLit : List Char := "pts=".toList
def ptsTimeLit : List Char := "pts_time=".toList
def dtsLit : List Char := "dts=".toList
def dtsTimeLit : List Char := "dts_time=".toList
def durationLit : List Char := "duration=".toList
def durationTimeLit : List Char := "duration_time=".toList
def flagsLit : List Char := "flags=".toList
def dataLit : List Char := "data=".toList

def MAX_NB_STREAMS : Nat := 32

def padStreams (ss : List StreamDesc) (n : Nat) : List StreamDesc :=
  ss ++ List.replicate (n - ss.length) newStream

/-- `read_section_format`: reads `nb_streams=<int>`; a value whose unsigned
cast exceeds 32 is invalid data; otherwise streams are pre-created up to
the value.  All other keys are ignored. -/
def readSectionFormat (input : List Char) :
    Nat → DecSt → Option (Except (Int × DecSt) DecSt)
  | 0, _ => none
  | fuel+1, d =>
    match readSectionLine input d with
    | (.err e, d2) => some (.error (e, d2))
    | (.close _, d2) => some (.ok d2)
    | (.content buf, d2) =>
      match scanIntD nbStreamsLit buf with
      | .ok v =>
        if v < 0 || (MAX_NB_STREAMS : Int) < v then
          some (.error (AVERROR_INVALIDDATA, d2))
        else
          readSectionFormat input fuel
            {d2 with streams := padStreams d2.streams v.toNat}
      | _ => readSectionFormat input fuel d2

/-- The `codec_name=` / `extradata=` / `time_base=` chain of
`read_section_stream`, applied to one content line once a stream has been
selected. -/
def streamChainStep (reg : Registry) (input : List Char) (fuel : Nat)
    (d : DecSt) (i : Nat) (buf : List Char) :
    Option (Except (Int × DecSt) DecSt) :=
  match matchLit codecNameLit buf with
  | .ok val =>
    match reg.byName (String.mk val) with
    | some desc =>
      let ss := updStream d.streams i (fun s => {s with codec := some desc})
      some (.ok {d with streams := ss})
    | none => some (.ok d)
  | _ =>
    if buf = extradataLit then
      match readData input fuel d with
      | none => none
      | some (.error e) => some (.error e)
      | some (.ok (d2, _)) =>
        if !d2.dataBuf.isEmpty then
          let ss := updStream d2.streams i
                      (fun s => {s with extradata := some d2.dataBuf})
          some (.ok {d2 with streams := ss})
        else some (.ok d2)
    else
      match scanRatio timeBaseLit buf with
      | some (v1, v2) =>
        if v1 ≤ 0 || v2 ≤ 0 then some (.error (AVERROR_INVALIDDATA, d))
        else
          let ss := updStream d.streams i
                      (fun s => {s with tbNum := v1, tbDen := v2})
          some (.ok {d with streams := ss})
      | none => some (.ok d)

/-- The line loop of `read_section_stream`: the first line must establish
`index=` (appending a stream exactly when the index equals the current
count, otherwise requiring it to exist); each line then flows through the
codec/extradata/time-base chain. -/
def readSectionStreamLoop (reg : Registry) (input : List Char) :
    Nat → DecSt → Option Nat → Option (Except (Int × DecSt) DecSt)
  | 0, _, _ => none
  | fuel+1, d, sel =>
    match readSectionLine input d with
    | (.err e, d2) => some (.error (e, d2))
    | (.close _, d2) => some (.ok d2)
    | (.content buf, d2) =>
      let selRes : Except (Int × DecSt) (DecSt × Nat) :=
        match sel with
        | some i => .ok (d2, i)
        | none =>
          match scanIntD indexLit buf with
          | .ok idx =>
            let d3 := if idx = (d2.streams.length : Int)
                      then {d2 with streams := d2.streams ++ [newStream]}
                      else d2
            if idx < 0 || (d3.streams.length : Int) ≤ idx then
              .error (AVERROR_INVALIDDATA, d3)
            else .ok (d3, idx.toNat)
          | _ => .error (AVERROR_INVALIDDATA, d2)
      match selRes with
      | .error e => some (.error e)
      | .ok (d3, i) =>
        match streamChainStep reg input fuel d3 i buf with
        | none => none
        | some (.error e) => some (.error e)
        | some (.ok d4) => readSectionStreamLoop reg input fuel d4 (some i)

/-- `read_section_stream`: clears the accumulation buffer, then runs the
line loop with no stream selected. -/
def readSectionStream (reg : Registry) (input : List Char) (fuel : Nat)
    (d : DecSt) : Option (Except (Int × DecSt) DecSt) :=
  readSectionStreamLoop reg input fuel {d with dataBuf := []} none

/-! ## Packet section reader -/

/-- The local packet-parsing state of `read_section_packet`: the packet
fields initialised by `av_init_packet` (pts/dts unset, duration 0, flags 0)
plus `stream_index = -1`, `size = -1`, the `has_*` flags and the local
`pts`/`dts`/`duration` variables of the `PARSE_TIME` macro. -/
structure PPk where
  streamIndex : Int := -1
  psize : Int := -1
  ppts : Int := AV_NOPTS_VALUE
  pdts : Int := AV_NOPTS_VALUE
  pduration : Int := 0
  pflags : Nat := 0
  hasStreamIndex : Bool := false
  hasPtsTime : Bool := false
  hasDtsTime : Bool := false
  hasDurationTime : Bool := false
  lpts : Int := AV_NOPTS_VALUE
  ldts : Int := AV_NOPTS_VALUE
  lduration : Int := 0
  ppos : Int := 0
deriving DecidableEq, Repr

/-- The `PARSE_TIME(name_, is_duration)` macro applied to one line: the
unguarded raw `sscanf` assigns the packet field only on a successful
conversion; a matching `_time=%s` token either maps `N/A` to the sentinel
(`0` for durations), or must parse as a time (else the error is
returned). -/
def parseTimeField (buf rawLit timeLit : List Char) (isDur : Bool)
    (praw : Int) (hasT : Bool) (lval : Int) :
    Except Int (Int × Bool × Int) :=
  let praw2 := match scanI64 rawLit buf with
               | .ok v => v
               | _ => praw
  match scanStr timeLit buf with
  | .ok tok =>
    if tok = "N/A".toList then
      .ok (praw2, true, if isDur then 0 else AV_NOPTS_VALUE)
    else
      match parseTime tok with
      | some t => .ok (praw2, true, t)
      | none => .error AVERROR_EINVAL
  | _ => .ok (praw2, hasT, lval)

/-- Everything `read_section_packet` does with one content line except the
`data=` block: the `if (sscanf(buf, "stream_index=%d", ...))` guard (taken
on `EOF` as well, re-range-checking the current value), the three
`PARSE_TIME` expansions, and `flags=%c`. -/
def pureLineStep (nb : Nat) (p : PPk) (buf : List Char) : Except Int PPk :=
  let siStep : Except Int PPk :=
    match scanIntD streamIndexLit buf with
    | .fail => .ok p
    | .eof =>
      if p.streamIndex < 0 || (nb : Int) ≤ p.streamIndex then
        .error AVERROR_INVALIDDATA
      else .ok {p with hasStreamIndex := true}
    | .ok v =>
      if v < 0 || (nb : Int) ≤ v then .error AVERROR_INVALIDDATA
      else .ok {p with streamIndex := v, hasStreamIndex := true}
  match siStep with
  | .error e => .error e
  | .ok p1 =>
    match parseTimeField buf ptsLit ptsTimeLit false p1.ppts p1.hasPtsTime p1.lpts with
    | .error e => .error e
    | .ok (a1, b1, c1) =>
      let p2 := {p1 with ppts := a1, hasPtsTime := b1, lpts := c1}
      match parseTimeField buf dtsLit dtsTimeLit false p2.pdts p2.hasDtsTime p2.ldts with
      | .error e => .error e
      | .ok (a2, b2, c2) =>
        let p3 := {p2 with pdts := a2, hasDtsTime := b2, ldts := c2}
        match parseTimeField buf durationLit durationTimeLit true
              p3.pduration p3.hasDurationTime p3.lduration with
        | .error e => .error e
        | .ok (a3, b3, c3) =>
          let p4 := {p3 with pduration := a3, hasDurationTime := b3, lduration := c3}
          match scanChar flagsLit buf with
          | .ok ch => .ok {p4 with pflags := if ch = 'K' then 1 else 0}
          | _ => .ok p4

/-- One content line of `read_section_packet`, including the `data=`
trigger of `read_data` (which sets the packet size). -/
def packetLineStep (input : List Char) (fuel : Nat) (d : DecSt) (p : PPk)
    (buf : List Char) : Option (Except (Int × DecSt) (DecSt × PPk)) :=
  match pureLineStep d.streams.length p buf with
  | .error e => some (.error (e, d))
  | .ok p1 =>
    if buf = dataLit then
      match readData input fuel d with
      | none => none
      | some (.error e) => some (.error e)
      | some (.ok (d2, sz)) => some (.ok (d2, {p1 with psize := sz}))
    else some (.ok (d, p1))

/-- The line loop of `read_section_packet`. -/
def readSectionPacketLoop (input : List Char) :
    Nat → DecSt → PPk → Option (Except (Int × DecSt) (DecSt × PPk))
  | 0, _, _ => none
  | fuel+1, d, p =>
    match readSectionLine input d with
    | (.err e, d2) => some (.error (e, d2))
    | (.close _, d2) => some (.ok (d2, p))
    | (.content buf, d2) =>
      match packetLineStep input fuel d2 p buf with
      | none => none
      | some (.error e) => some (.error e)
      | some (.ok (d3, p2)) => readSectionPacketLoop input fuel d3 p2

/-- `read_section_packet`: clears the accumulation buffer, records the
packet position, runs the line loop; afterwards a missing `stream_index`
is invalid data, a negative size or out-of-range index yields `SEC_NONE`
with no packet, and otherwise the `_time` values are rescaled from
microseconds into the stream's time base (`N/A` locals never override) and
the packet is assembled from the accumulation buffer.  The `memcpy` of
`min(data.len, size)` bytes into the `size`-byte packet is modelled with a
zero tail (in every reachable run `data.len = size`). -/
def readSectionPacket (input : List Char) (fuel : Nat) (d : DecSt) :
    Option (Int × DecSt × Option Packet) :=
  let p0 : PPk := {ppos := (d.pos : Int)}
  let d0 := {d with dataBuf := []}
  match readSectionPacketLoop input fuel d0 p0 with
  | none => none
  | some (.error (e, d2)) => some (e, d2, none)
  | some (.ok (d2, p)) =>
    if !p.hasStreamIndex then some (AVERROR_INVALIDDATA, d2, none)
    else if p.psize < 0 || p.streamIndex < 0 ||
            (d2.streams.length : Int) ≤ p.streamIndex then
      some (SEC_NONE, d2, none)
    else
      let tb := (d2.streams.get? p.streamIndex.toNat).getD {}
      let pts2 := if p.hasPtsTime && !(p.lpts = AV_NOPTS_VALUE)
                  then avRescaleQ p.lpts 1 1000000 tb.tbNum tb.tbDen
                  else p.ppts
      let dts2 := if p.hasDtsTime && !(p.ldts = AV_NOPTS_VALUE)
                  then avRescaleQ p.ldts 1 1000000 tb.tbNum tb.tbDen
                  else p.pdts
      let dur2 := if p.hasDurationTime && !(p.lduration = 0)
                  then avRescaleQ p.lduration 1 1000000 tb.tbNum tb.tbDen
                  else p.pduration
      let payload := (d2.dataBuf.take p.psize.toNat) ++
                     List.replicate (p.psize.toNat - d2.dataBuf.length) 0
      some (SEC_PACKET, d2,
        some { streamIndex := p.streamIndex, pts := pts2, dts := dts2,
               duration := dur2, flags := p.pflags, payload := payload,
               psize := p.psize, ppos := p.ppos })

/-! ## Section dispatcher, header and packet entry points -/

/-- The `while (!ffp->section)` loop of `read_section`: skip lines until a
recognized section start, propagating read errors. -/
def readSectionStartLoop (input : List Char) :
    Nat → DecSt → Option (Except (Int × DecSt) DecSt)
  | 0, _ => none
  | fuel+1, d =>
    if d.sec = 0 then
      let r := readSectionStart input d
      if r.1 < 0 then some (.error (r.1, r.2))
      else readSectionStartLoop input fuel r.2
    else some (.ok d)

/-- `read_section`: dispatch on the current section; the packet counter is
incremented after `read_section_packet` regardless of its result. -/
def readSection (reg : Registry) (input : List Char) (fuel : Nat)
    (d : DecSt) : Option (Int × DecSt × Option Packet) :=
  match readSectionStartLoop input fuel d with
  | none => none
  | some (.error (e, d2)) => some (e, d2, none)
  | some (.ok d2) =>
    if d2.sec = SEC_FORMAT then
      match readSectionFormat input fuel d2 with
      | none => none
      | some (.error (e, d3)) => some (e, d3, none)
      | some (.ok d3) => some (SEC_FORMAT, d3, none)
    else if d2.sec = SEC_STREAM then
      match readSectionStream reg input fuel d2 with
      | none => none
      | some (.error (e, d3)) => some (e, d3, none)
      | some (.ok d3) => some (SEC_STREAM, d3, none)
    else if d2.sec = SEC_PACKET then
      match readSectionPacket input fuel d2 with
      | none => none
      | some (ret, d3, pk) =>
        some (ret, {d3 with packetNb := d3.packetNb + 1}, pk)
    else some (AVERROR_BUG, d2, none)

/-- The stream-section loop of `ffprobe_read_header`, counting how many
STREAM sections were actually read; on leaving the loop the count must
match the stream table, else `AVERROR_INVALIDDATA`. -/
def headerStreamLoop (reg : Registry) (input : List Char) :
    Nat → DecSt → Int → Option (Int × DecSt)
  | 0, _, _ => none
  | fuel+1, d, n =>
    let r := readSectionStart input d
    if r.1 ≠ SEC_STREAM then
      some (if n ≠ (r.2.streams.length : Int) then AVERROR_INVALIDDATA else 0, r.2)
    else
      match readSectionStream reg input fuel r.2 with
      | none => none
      | some (.error (e, d3)) => some (e, d3)
      | some (.ok d3) => headerStreamLoop reg input fuel d3 (n + 1)

/-- `ffprobe_read_header`: the compliance gate comes first (before any
input is read); a first section start other than `[FORMAT]` switches to
no-header mode and succeeds; otherwise the format section and the
consecutive stream sections are read and the section count is checked. -/
def ffprobeReadHeader (reg : Registry) (input : List Char) (fuel : Nat)
    (strict : Int) (d : DecSt) : Option (Int × DecSt) :=
  if FF_COMPLIANCE_EXPERIMENTAL < strict then some (AVERROR_EXPERIMENTAL, d)
  else
    let d0 := {d with dataBuf := []}
    let r := readSectionStart input d0
    if r.1 < 0 then some (r.1, r.2)
    else if r.1 ≠ SEC_FORMAT then some (0, {r.2 with noheader := true})
    else
      match readSectionFormat input fuel r.2 with
      | none => none
      | some (.error (e, d2)) => some (e, d2)
      | some (.ok d2) => headerStreamLoop reg input fuel d2 0

/-- `ffprobe_read_packet`: loop over sections until one produces a packet
(return `0`) or an error surfaces. -/
def ffprobeReadPacket (reg : Registry) (input : List Char) :
    Nat → DecSt → Option (Int × DecSt × Option Packet)
  | 0, _ => none
  | fuel+1, d =>
    match readSection reg input fuel d with
    | none => none
    | some (ret, d2, pk) =>
      if ret < 0 then some (ret, d2, none)
      else if ret = SEC_PACKET then some (0, d2, pk)
      else ffprobeReadPacket reg input fuel d2

/-! ## Encoder (ffprobeenc.c) -/

/-- Muxer-side view of a stream: codec identifier, media-type string (or
`none`, encoded as "unknown") and time base. -/
structure MuxStream where
  codecId : Nat
  ctype : Option String
  tbNum : Int
  tbDen : Int
deriving DecidableEq, Repr

/-- Muxer-side packet. -/
structure MuxPacket where
  streamIndex : Nat
  pts : Int
  dts : Int
  duration : Int
  flags : Nat
  payload : List Nat
deriving DecidableEq, Repr

/-- `ffprobe_write_header`: format block, then one stream block per
descriptor.  `avcodec_descriptor_get` returning NULL would be dereferenced
by the C code; the model emits the empty name for that (unreachable) case,
and the claims assume resolvable codec identifiers. -/
def ffprobeWriteHeader (reg : Registry) (streams : List MuxStream) : String :=
  "[FORMAT]\nnb_streams=" ++ toString streams.length ++
  "\nformat_name=ffprobe\n[/FORMAT]\n" ++
  String.join ((List.range streams.length).map (fun i =>
    let st := (streams.get? i).getD ⟨0, none, 0, 1⟩
    "[STREAM]\nindex=" ++ toString i ++
    "\ncodec_name=" ++ (((reg.byId st.codecId).map (·.cname)).getD "") ++
    "\ntime_base=" ++ toString st.tbNum ++ "/" ++ toString st.tbDen ++
    "\n[/STREAM]\n"))

def NULc : Char := Char.ofNat 0

def hexChar (n : Nat) : Char :=
  if n < 10 then Char.ofNat (48 + n) else Char.ofNat (87 + n)

/-- `printf("%s", buf)`: the characters up to the first NUL. -/
def cstrOf (buf : Array Char) : String :=
  String.mk (buf.toList.takeWhile (fun c => c ≠ NULc))

/-- The loop of `ffprobe_write_data`, modelled exactly as written: `buf` is
the 130-byte stack buffer (one extra cell holds the out-of-bounds NUL the C
code writes when `j = 64`); `sprintf(buf+2*j, "%02x", ...)` stores two hex
digits and a NUL; only when `j` reaches `BYTES_NB = 64` is a newline+NUL
written at positions 64/65, the buffer printed, and `j` reset (the loop
increment then makes it 1).  The trailing partial buffer is never
printed. -/
def writeDataLoop : List Nat → Nat → Array Char → String → String
  | [], _, _, out => out
  | b :: rest, j, buf, out =>
    let buf1 := ((buf.set! (2*j) (hexChar (b / 16))).set! (2*j+1)
                  (hexChar (b % 16))).set! (2*j+2) NULc
    if j = 64 then
      let buf2 := (buf1.set! 64 '\n').set! 65 NULc
      writeDataLoop rest 1 buf2 (out ++ cstrOf buf2)
    else writeDataLoop rest (j+1) buf1 out

/-- `ffprobe_write_data`: the `data=` marker line, the flushed 64-byte
groups, and the terminating blank line. -/
def ffprobeWriteData (data : List Nat) : String :=
  "data=\n" ++ writeDataLoop data 0 (Array.mkArray 131 NULc) "" ++ "\n"

/-- `%f` of `av_q2d(time_base) * v` with 6 decimals, modelled with exact
rational rounding in place of the excluded floating-point collaborator
(not exercised by any theorem in this file; the concrete round-trip input
uses only `N/A` timestamps). -/
def fmtF6 (num den : Int) : String :=
  let sign := num * den < 0
  let n := num.natAbs
  let d := den.natAbs
  let scaled := (n * 1000000 + d / 2) / d
  let ds := digitsOf (scaled % 1000000)
  (if sign then "-" else "") ++ toString (scaled / 1000000) ++ "." ++
    String.mk (List.replicate (6 - ds.length) '0' ++ ds)

/-- `ffprobe_write_packet`: packet block with media type, stream index,
`_time` + raw pairs when set (`N/A` otherwise), flags character, hex data
block, close marker. -/
def ffprobeWritePacket (_reg : Registry) (streams : List MuxStream)
    (pkt : MuxPacket) : String :=
  let st := (streams.get? pkt.streamIndex).getD ⟨0, none, 0, 1⟩
  "[PACKET]\ncodec_type=" ++ (st.ctype.getD "unknown") ++
  "\nstream_index=" ++ toString pkt.streamIndex ++ "\n" ++
  (if pkt.pts ≠ AV_NOPTS_VALUE then
     "pts_time=" ++ fmtF6 (st.tbNum * pkt.pts) st.tbDen ++
     "\npts=" ++ toString pkt.pts ++ "\n"
   else "pts=N/A\n") ++
  (if pkt.dts ≠ AV_NOPTS_VALUE then
     "dts_time=" ++ fmtF6 (st.tbNum * pkt.dts) st.tbDen ++
     "\ndts=" ++ toString pkt.dts ++ "\n"
   else "dts=N/A\n") ++
  (if pkt.duration ≠ 0 then
     "duration_time=" ++ fmtF6 (st.tbNum * pkt.duration) st.tbDen ++
     "\nduration=" ++ toString pkt.duration ++ "\n"
   else "duration=N/A\n") ++
  "flags=" ++ (if pkt.flags % 2 = 1 then "K" else "_") ++ "\n" ++
  ffprobeWriteData pkt.payload ++
  "[/PACKET]\n"

/-- A whole muxed file: header then packets. -/
def ffprobeMuxOutput (reg : Registry) (streams : List MuxStream)
    (pkts : List MuxPacket) : String :=
  ffprobeWriteHeader reg streams ++
  String.join (pkts.map (ffprobeWritePacket reg streams))

/-! ## Secondary word-based format (fftextdatadec.c) -/

/-- `avio_r8`: the next byte, or `0` at end of stream. -/
def r8 (input : List Char) (pos : Nat) : Char × Nat :=
  match input.drop pos with
  | [] => (NULc, pos)
  | c :: _ => (c, pos + 1)

/-- `is_space` of fftextdatadec.c. -/
def isSpaceTd (c : Char) : Bool :=
  c = ' ' || c = '\t' || c = '\r' || c = '\n'

/-- The space-skipping prologue shared by `read_word` and `read_data`:
either end of stream (`none`) or the first non-space character,
consumed. -/
def rwSkip (input : List Char) : Nat → Nat → Option (Option Char × Nat)
  | 0, _ => none
  | fuel+1, pos =>
    let r := r8 input pos
    if r.1 = NULc then some (none, r.2)
    else if isSpaceTd r.1 then rwSkip input fuel r.2
    else some (some r.1, r.2)

/-- The word-accumulation loop of `read_word`: stop at end of stream, or
at a space (which is pushed back with `avio_skip(-1)`). -/
def rwWord (input : List Char) : Nat → Nat → List Char → Option (List Char × Nat)
  | 0, _, _ => none
  | fuel+1, pos, acc =>
    let r := r8 input pos
    if r.1 = NULc then some (acc, r.2)
    else if isSpaceTd r.1 then some (acc, r.2 - 1)
    else rwWord input fuel r.2 (acc ++ [r.1])

def readWord (input : List Char) (fuel : Nat) (pos : Nat) :
    Option (List Char × Nat) :=
  match rwSkip input fuel pos with
  | none => none
  | some (none, p2) => some ([], p2)
  | some (some c, p2) => rwWord input fuel p2 [c]

/-- The data-accumulation loop of `read_data` (fftextdatadec.c): stop at
end of stream or `;`; spaces inside the token are skipped, not
terminators. -/
def rwData (input : List Char) : Nat → Nat → List Char → Option (List Char × Nat)
  | 0, _, _ => none
  | fuel+1, pos, acc =>
    let r := r8 input pos
    if r.1 = NULc || r.1 = ';' then some (acc, r.2)
    else if isSpaceTd r.1 then rwData input fuel r.2 acc
    else rwData input fuel r.2 (acc ++ [r.1])

def readDataTd (input : List Char) (fuel : Nat) (pos : Nat) :
    Option (List Char × Nat) :=
  match rwSkip input fuel pos with
  | none => none
  | some (none, p2) => some ([], p2)
  | some (some c, p2) => rwData input fuel p2 [c]

/-- fftextdata demuxer state: packet counter and read position. -/
structure TdState where
  nbPackets : Int := 0
  pos : Nat := 0
deriving DecidableEq, Repr

/-- A packet produced by the fftextdata demuxer. -/
structure TdPacket where
  pts : Int
  psize : Int
  payload : List Nat
  flags : Nat
  ppos : Int
deriving DecidableEq, Repr

/-- `fftextdata_read_packet`: read the time word (empty: clean
`AVERROR_EOF`), parse it (failure is an error), read the base64 token
(empty: warning — the `Bool` in the result — plus `AVERROR_EOF`), then
base64-decode into the packet, which carries the key flag.  The C
function returns the decoded size on success. -/
def fftextdataReadPacket (input : List Char) (fuel : Nat) (st : TdState) :
    Option (Int × TdState × Option TdPacket × Bool) :=
  let ppos := st.pos
  match readWord input fuel st.pos with
  | none => none
  | some (w, p1) =>
    if w.length = 0 then some (AVERROR_EOF, {st with pos := p1}, none, false)
    else
      match parseTime w with
      | none => some (AVERROR_EINVAL, {st with pos := p1}, none, false)
      | some t =>
        match readDataTd input fuel p1 with
        | none => none
        | some (dw, p2) =>
          if dw.length = 0 then
            some (AVERROR_EOF, {st with pos := p2}, none, true)
          else
            let dsz := dw.length * 3 / 4
            match avBase64Decode dw with
            | none => some (AVERROR_EINVAL, {st with pos := p2}, none, false)
            | some bytes =>
              let bytes2 := bytes.take dsz
              some ((bytes2.length : Int),
                    {nbPackets := st.nbPackets + 1, pos := p2},
                    some ⟨t, (bytes2.length : Int), bytes2, 1, (ppos : Int)⟩,
                    false)

/-! ## Support definitions for the theorems -/

/-- Concatenate lines, terminating each with a newline. -/
def joinNL : List (List Char) → List Char
  | [] => []
  | l :: ls => l ++ '\n' :: joinNL ls

/-- A line that the Line Reader hands to a section reader as ordinary
content: no embedded newline, not a close marker, short enough for the
line buffer. -/
def plainLine (l : List Char) : Prop :=
  '\n' ∉ l ∧ isCloseMarker l = false ∧ l.length ≤ LINE_BUFFER_SIZE - 2

/-- A valid non-blank hex line for `read_data`. -/
def hexLineOk (l : List Char) : Prop :=
  l ≠ [] ∧ '\n' ∉ l ∧ isCloseMarker l = false ∧
  l.length ≤ LINE_BUFFER_SIZE - 2 ∧ (hexScanLine l).2 = true

/-- The bytes of a whole hex block. -/
def hexBytes (ls : List (List Char)) : List Nat :=
  (ls.map (fun l => (hexScanLine l).1)).flatten

/-- The fold of the non-`data=` part of the packet line loop. -/
def foldPure (nb : Nat) : PPk → List (List Char) → Except Int PPk
  | p, [] => .ok p
  | p, l :: ls =>
    match pureLineStep nb p l with
    | .error e => .error e
    | .ok p2 => foldPure nb p2 ls

/-- Any `_time=` token on the line is `N/A` or parseable (so the
`PARSE_TIME` expansion cannot fail on it). -/
def timeBenign (lit : List Char) (l : List Char) : Prop :=
  ∀ tok, scanStr lit l = .ok tok → tok = "N/A".toList ∨ parseTime tok ≠ none

/-- Any `stream_index=` match on the line is in range. -/
def siBenign (nb : Nat) (l : List Char) : Prop :=
  ∀ v, scanIntD streamIndexLit l = .ok v → 0 ≤ v ∧ v < (nb : Int)

/-- A packet content line that cannot abort the loop (given that a valid
stream index is already established). -/
def packetBenign (nb : Nat) (l : List Char) : Prop :=
  timeBenign ptsTimeLit l ∧ timeBenign dtsTimeLit l ∧
  timeBenign durationTimeLit l ∧ siBenign nb l

/-- Stream-table growth of a run of minimal `[STREAM]` sections over the
given index list: an index equal to the current count appends, a smaller
one selects, a larger one is invalid. -/
def growth (nbs : Nat) : List Nat → Option Nat
  | [] => some nbs
  | i :: is =>
    if i = nbs then growth (nbs + 1) is
    else if i < nbs then growth nbs is
    else none

/-- A minimal `[FORMAT]` section declaring `n` streams. -/
def formatText (n : Nat) : List Char :=
  "[FORMAT]\nnb_streams=".toList ++ digitsOf n ++ '\n' :: "[/FORMAT]\n".toList

/-- A minimal `[STREAM]` section for index `i`. -/
def streamSecText (i : Nat) : List Char :=
  "[STREAM]\nindex=".toList ++ digitsOf i ++ '\n' :: "[/STREAM]\n".toList

def streamSecsText (idxs : List Nat) : List Char :=
  (idxs.map streamSecText).flatten

/-- Error codes that the section readers can produce (used to show the
experimental-feature error is distinct). -/
def sectionErrCode (e : Int) : Prop :=
  e = AVERROR_INVALIDDATA ∨ e = AVERROR_EINVAL

/-! ## Concrete fixtures for the counterexamples and code-bug runs -/

def binDataDesc : AVCodecDescriptor := ⟨42, "bin_data", "data"⟩

/-- A concrete codec registry resolving the generic binary-data codec. -/
def testReg : Registry :=
  ⟨fun n => if n = "bin_data" then some binDataDesc else none,
   fun i => if i = 42 then some binDataDesc else none⟩

/-- Round-trip fixture: one stream (resolvable codec, time base 1/1000)
and one key packet with payload byte `0x01` and unset timestamps. -/
def rtStreams : List MuxStream := [⟨42, some "data", 1, 1000⟩]

def rtPkts : List MuxPacket := [⟨0, AV_NOPTS_VALUE, AV_NOPTS_VALUE, 0, 1, [1]⟩]

def rtText : List Char := (ffprobeMuxOutput testReg rtStreams rtPkts).toList

def rtStreamDesc : StreamDesc := ⟨some binDataDesc, 1, 1000, none⟩

def rtMidState : DecSt :=
  { sec := 3, dataBuf := [], packetNb := 0, streams := [rtStreamDesc],
    noheader := false, pos := 125 }

def rtEndState : DecSt :=
  { sec := 0, dataBuf := [], packetNb := 1, streams := [rtStreamDesc],
    noheader := false, pos := 210 }

def rtDecodedPkt : Packet :=
  { streamIndex := 0, pts := AV_NOPTS_VALUE, dts := AV_NOPTS_VALUE,
    duration := 0, flags := 1, payload := [], psize := 0, ppos := 125 }

/-- C2 fixture: a packet section whose data block is the encoder's output
for payload `[0x01]`. -/
def c2Input : List Char :=
  ("stream_index=0\n" ++ ffprobeWriteData [1] ++ "[/PACKET]\n").toList

def c2EndState : DecSt :=
  { sec := 0, dataBuf := [], packetNb := 0, streams := [{}],
    noheader := false, pos := 32 }

def c2Pkt : Packet :=
  { streamIndex := 0, pts := AV_NOPTS_VALUE, dts := AV_NOPTS_VALUE,
    duration := 0, flags := 0, payload := [], psize := 0, ppos := 0 }

/-- C3 fixture: a packet section naming stream 5 when only one stream
exists. -/
def c3Input : List Char := ("stream_index=5\n[/PACKET]\n").toList

def c3St : DecSt := {sec := 3, streams := [{}]}

def c3EndSt : DecSt :=
  { sec := 3, dataBuf := [], packetNb := 0, streams := [{}],
    noheader := false, pos := 15 }

/-- C5 fixture: a hex block (`01`) terminated directly by the section
close marker, which spans bytes 3..12 of the input. -/
def c5Input : List Char := ("01\n[/PACKET]\n").toList

def c5EndSt : DecSt :=
  { sec := 0, dataBuf := [1], packetNb := 0, streams := [],
    noheader := false, pos := 2 }

/-- C6 fixture: `duration=7` co-present with `duration_time=N/A`. -/
def c6Input : List Char :=
  ("stream_index=0\nduration=7\nduration_time=N/A\ndata=\n\n[/PACKET]\n").toList

def c6St : DecSt := {sec := 3, streams := [rtStreamDesc]}

def c6EndSt : DecSt :=
  { sec := 0, dataBuf := [], packetNb := 0, streams := [rtStreamDesc],
    noheader := false, pos := 61 }

def c6Pkt : Packet :=
  { streamIndex := 0, pts := AV_NOPTS_VALUE, dts := AV_NOPTS_VALUE,
    duration := 7, flags := 0, payload := [], psize := 0, ppos := 0 }

/-- The ten decimal digit characters (every character `digitsOf` can
emit). -/
def decDigits : List Char := ['0','1','2','3','4','5','6','7','8','9']

/-- The local value the `PARSE_TIME` expansion assigns for a `_time`
token, on benign lines (`N/A` or parseable). -/
def timeLocal (isDur : Bool) (tok : List Char) : Int :=
  if tok = "N/A".toList then (if isDur then 0 else AV_NOPTS_VALUE)
  else (parseTime tok).getD 0

/-- The per-line field update performed by `pureLineStep` on a benign line
(in-range stream index, `N/A`-or-parseable `_time` tokens): used to
characterize the packet line loop as a list fold. -/
def stepFields (p : PPk) (l : List Char) : PPk :=
  let p0 := match scanIntD streamIndexLit l with
            | .fail => p
            | .eof => {p with hasStreamIndex := true}
            | .ok v => {p with streamIndex := v, hasStreamIndex := true}
  let p1 := match scanI64 ptsLit l with
            | .ok v => {p0 with ppts := v}
            | _ => p0
  let p2 := match scanStr ptsTimeLit l with
            | .ok tok => {p1 with hasPtsTime := true, lpts := timeLocal false tok}
            | _ => p1
  let p3 := match scanI64 dtsLit l with
            | .ok v => {p2 with pdts := v}
            | _ => p2
  let p4 := match scanStr dtsTimeLit l with
            | .ok tok => {p3 with hasDtsTime := true, ldts := timeLocal false tok}
            | _ => p3
  let p5 := match scanI64 durationLit l with
            | .ok v => {p4 with pduration := v}
            | _ => p4
  let p6 := match scanStr durationTimeLit l with
            | .ok tok => {p5 with hasDurationTime := true, lduration := timeLocal true tok}
            | _ => p5
  match scanChar flagsLit l with
  | .ok ch => {p6 with pflags := if ch = 'K' then 1 else 0}
  | _ => p6

/-- State after a hex-block loop: position advanced, section cleared,
bytes appended (used to phrase the `read_data` lemmas). -/
def dataExitState (d : DecSt) (adv : Nat) (bs : List Nat) : DecSt :=
  {d with pos := d.pos + adv, sec := 0, dataBuf := d.dataBuf ++ bs}

/-- State after `read_data` exits through the close-marker rewind: the
read position is set to `p2`, the section is cleared and the decoded
bytes are appended. -/
def rewindState (d : DecSt) (p2 : Nat) (bs : List Nat) : DecSt :=
  {d with pos := p2, sec := 0, dataBuf := d.dataBuf ++ bs}

/-- State after a minimal stream section (`index=i` then close): buffer
cleared, section cleared, position advanced, a stream appended exactly
when `i` names the next free slot. -/
def streamExitState (d : DecSt) (i : Nat) (adv : Nat) : DecSt :=
  { sec := 0, dataBuf := [], packetNb := d.packetNb,
    streams := if i = d.streams.length then d.streams ++ [newStream] else d.streams,
    noheader := d.noheader, pos := d.pos + adv }

/-- State after a minimal format section (`nb_streams=n` then close). -/
def formatExitState (d : DecSt) (n : Nat) (adv : Nat) : DecSt :=
  { sec := 0, dataBuf := d.dataBuf, packetNb := d.packetNb,
    streams := padStreams d.streams n, noheader := d.noheader,
    pos := d.pos + adv }

/-- The packet assembled in the success branch of `read_section_packet`
(support abbreviation for the theorems). -/
def assemblePkt (d2 : DecSt) (p : PPk) : Packet :=
  let tb := (d2.streams.get? p.streamIndex.toNat).getD {}
  { streamIndex := p.streamIndex,
    pts := if p.hasPtsTime && !(p.lpts = AV_NOPTS_VALUE)
           then avRescaleQ p.lpts 1 1000000 tb.tbNum tb.tbDen else p.ppts,
    dts := if p.hasDtsTime && !(p.ldts = AV_NOPTS_VALUE)
           then avRescaleQ p.ldts 1 1000000 tb.tbNum tb.tbDen else p.pdts,
    duration := if p.hasDurationTime && !(p.lduration = 0)
                then avRescaleQ p.lduration 1 1000000 tb.tbNum tb.tbDen
                else p.pduration,
    flags := p.pflags,
    payload := (d2.dataBuf.take p.psize.toNat) ++
               List.replicate (p.psize.toNat - d2.dataBuf.length) 0,
    psize := p.psize, ppos := p.ppos }

/-! ## Theorems -/

/-- C1: the round-trip law fails on the code.  For the valid one-stream
container `rtStreams` (resolvable codec `bin_data`, time base 1/1000) and
the single key packet with payload `[0x01]`, decoding the Encoder's output
reproduces the stream descriptor (codec resolved, time base 1/1000) and
the packet's stream_index, flags and tick fields — but the payload comes
back empty instead of `[0x01]`, because `ffprobe_write_data` never flushes
a partial hex line.  The claim's universally quantified round-trip
property is therefore violated by the code at this input. -/
theorem c1_roundtrip_payload_lost :
    ffprobeReadHeader testReg rtText 100 FF_COMPLIANCE_EXPERIMENTAL {} =
      some (0, rtMidState) ∧
    rtMidState.streams = [rtStreamDesc] ∧
    ffprobeReadPacket testReg rtText 100 rtMidState =
      some (0, rtEndState, some rtDecodedPkt) ∧
    rtDecodedPkt.streamIndex = 0 ∧ rtDecodedPkt.flags = 1 ∧
    rtDecodedPkt.pts = AV_NOPTS_VALUE ∧ rtDecodedPkt.dts = AV_NOPTS_VALUE ∧
    rtDecodedPkt.duration = 0 ∧
    rtDecodedPkt.payload = [] ∧
    (rtPkts.map (·.payload)) = [[1]] ∧ ([] : List Nat) ≠ [1] := by
  refine ⟨by decide, by decide, by decide, by decide, by decide, by decide,
          by decide, by decide, by decide, by decide, by decide⟩

/-- C2: the hex encoder/decoder pair fails on the code.  For the one-byte
buffer `[0x01]`, `ffprobe_write_data` emits only the marker line and the
terminating blank line — no two-hex-digit groups at all, since the partial
64-byte line is never flushed — and feeding that output back through the
packet reader (whose `data=` trigger is the hex decoder `read_data`)
yields the empty buffer, not `[0x01]`. -/
theorem c2_hex_encode_drops_payload :
    ffprobeWriteData [1] = "data=\n\n" ∧
    readSectionPacket c2Input 10 {sec := 3, streams := [{}]} =
      some (SEC_PACKET, c2EndState, some c2Pkt) ∧
    c2Pkt.payload = [] ∧ ([] : List Nat) ≠ [1] := by
  refine ⟨by decide, by decide, by decide, by decide⟩

/-- C3 counterexample: a packet section whose `stream_index=5` names a
stream out of range of the single known stream makes `read_section_packet`
return `AVERROR_INVALIDDATA` — a fatal error raised when the line is
parsed — not the non-error neutral `SEC_NONE` the claim asserts. -/
theorem c3_out_of_range_index_is_fatal :
    readSectionPacket c3Input 10 c3St = some (AVERROR_INVALIDDATA, c3EndSt, none) ∧
    AVERROR_INVALIDDATA < 0 ∧ AVERROR_INVALIDDATA ≠ SEC_NONE := by
  refine ⟨by decide, by decide, by decide⟩

/-- C5 counterexample: in `c5Input` the close-marker line `[/PACKET]` plus
its newline occupies bytes 3..12 (10 bytes, starting at position 3).  A
rewind "by exactly the byte length of that line plus its terminator" from
position 13 would leave the read position at 3; `read_data` actually
leaves it at 2, because the stored buffer already contains the newline and
the code rewinds `strlen(buf) + 1` bytes. -/
theorem c5_rewind_is_one_byte_more :
    readData c5Input 10 {sec := 3} = some (.ok (c5EndSt, 1)) ∧
    c5EndSt.pos = 2 ∧ (2 : Nat) ≠ 13 - 10 := by
  refine ⟨by rfl, by decide, by decide⟩

/-- C6 counterexample: a packet section containing both `duration=7` and
`duration_time=N/A` decodes to a packet whose duration is 7, not the tick
value 0 the claim asserts for every `duration_time=N/A` line: the `N/A`
local never overrides a co-present raw value. -/
theorem c6_duration_na_with_raw :
    readSectionPacket c6Input 10 c6St = some (SEC_PACKET, c6EndSt, some c6Pkt) ∧
    c6Pkt.duration = 7 ∧ (7 : Int) ≠ 0 := by
  refine ⟨by decide, by decide, by decide⟩

/-! ### Line-reader toolbox -/

theorem takeLine_append_nl (l : List Char) (rest : List Char) (h : '\n' ∉ l) :
    takeLine (l ++ '\n' :: rest) = l ++ ['\n'] := by
  induction l with
  | nil => simp [takeLine]
  | cons c cs ih =>
    simp only [List.mem_cons, not_or] at h
    have hc : ¬c = '\n' := fun hh => h.1 hh.symm
    simp [takeLine, hc, ih h.2]

theorem isCloseMarker_append_nl (l : List Char) :
    isCloseMarker (l ++ ['\n']) = isCloseMarker l := by
  match l with
  | [] => decide
  | [c] => simp [isCloseMarker]
  | c1 :: c2 :: r => simp [isCloseMarker]

theorem stripNL_append_nl (l : List Char) : stripNL (l ++ ['\n']) = l := by
  simp [stripNL, List.getLast?_concat, List.dropLast_concat]

theorem drop_line {input l rest : List Char} {p : Nat}
    (h : input.drop p = l ++ '\n' :: rest) :
    input.drop (p + (l.length + 1)) = rest := by
  rw [← List.drop_drop, h]
  have h2 : l ++ '\n' :: rest = (l ++ ['\n']) ++ rest := by simp
  rw [h2]
  exact List.drop_left' (by simp)

theorem getLine2_of_line {input l rest : List Char} {p : Nat}
    (h : input.drop p = l ++ '\n' :: rest) (hnl : '\n' ∉ l)
    (hlen : l.length ≤ LINE_BUFFER_SIZE - 2) :
    getLine2 input p = (l ++ ['\n'], l.length + 1, p + (l.length + 1)) := by
  have htake : (l ++ ['\n']).take (LINE_BUFFER_SIZE - 1) = l ++ ['\n'] := by
    apply List.take_of_length_le
    simp only [List.length_append, List.length_cons, List.length_nil]
    unfold LINE_BUFFER_SIZE at hlen ⊢
    omega
  unfold getLine2
  rw [h, takeLine_append_nl l rest hnl]
  dsimp only
  rw [htake]
  simp

theorem readSectionLine_content {input l rest : List Char} {d : DecSt}
    (h : input.drop d.pos = l ++ '\n' :: rest) (hp : plainLine l) :
    readSectionLine input d =
      (.content l, {d with pos := d.pos + (l.length + 1)}) := by
  obtain ⟨hnl, hcm, hlen⟩ := hp
  unfold readSectionLine
  rw [getLine2_of_line h hnl hlen]
  dsimp only
  have hcm2 : isCloseMarker (l ++ ['\n']) = false := by
    rw [isCloseMarker_append_nl]
    exact hcm
  simp [hcm2, stripNL_append_nl]

theorem readSectionLine_close {input t rest : List Char} {d : DecSt}
    (h : input.drop d.pos = '[' :: '/' :: t ++ '\n' :: rest) (hnl : '\n' ∉ t)
    (hlen : t.length ≤ LINE_BUFFER_SIZE - 4) :
    readSectionLine input d =
      (.close ('[' :: '/' :: t ++ ['\n']),
       {d with pos := d.pos + (t.length + 3), sec := 0}) := by
  have h2 : input.drop d.pos = ('[' :: '/' :: t) ++ '\n' :: rest := by
    simpa using h
  have hnl2 : '\n' ∉ '[' :: '/' :: t := by
    simp only [List.mem_cons, not_or]
    exact ⟨by decide, by decide, hnl⟩
  have hlen2 : ('[' :: '/' :: t).length ≤ LINE_BUFFER_SIZE - 2 := by
    simp only [List.length_cons]
    unfold LINE_BUFFER_SIZE at hlen ⊢
    omega
  unfold readSectionLine
  rw [getLine2_of_line h2 hnl2 hlen2]
  dsimp only
  have hcm : isCloseMarker ('[' :: '/' :: (t ++ ['\n'])) = true := by
    simp [isCloseMarker]
  simp [hcm]

/-- C4: inside a section, any line beginning with the two characters `[/`
is treated as the section's close marker: `read_section_line` returns the
end-of-section result and clears the session's section state for every
name `t` that follows, and in particular never compares that name with the
opening tag (the result is the same for all `t` and all current section
states). -/
theorem c4_any_close_marker_ends_section (input t rest : List Char)
    (d : DecSt) (h : input.drop d.pos = '[' :: '/' :: t ++ '\n' :: rest)
    (hnl : '\n' ∉ t) (hlen : t.length ≤ LINE_BUFFER_SIZE - 4) :
    readSectionLine input d =
      (.close ('[' :: '/' :: t ++ ['\n']),
       {d with pos := d.pos + (t.length + 3), sec := 0}) :=
  readSectionLine_close h hnl hlen

/-- Witness for C4: a `[STREAM]` section closed by `[/NONSENSE]` at
position 0 of a concrete input. -/
theorem c4_any_close_marker_ends_section_witness :
    readSectionLine ("[/NONSENSE]\nrest".toList) {sec := 2} =
      (.close ("[/NONSENSE]\n".toList),
       {sec := 0, dataBuf := [], packetNb := 0, streams := [],
        noheader := false, pos := 12}) := by
  have := c4_any_close_marker_ends_section ("[/NONSENSE]\nrest".toList)
    ("NONSENSE]".toList) ("rest".toList) {sec := 2} (by decide) (by decide)
    (by decide)
  simpa using this

/-! ### Hex-block toolbox -/

theorem joinNL_snoc_nl (ls : List (List Char)) :
    ∃ pre : List Char, '\n' :: joinNL ls = pre ++ ['\n'] ∧
      pre.length = (joinNL ls).length := by
  induction ls with
  | nil => exact ⟨[], by simp [joinNL], by simp [joinNL]⟩
  | cons l ls2 ih =>
    obtain ⟨pre2, hpre2, hlen2⟩ := ih
    refine ⟨'\n' :: l ++ pre2, ?_, ?_⟩
    · have hsplit : '\n' :: joinNL (l :: ls2) = ('\n' :: l) ++ ('\n' :: joinNL ls2) := by
        simp [joinNL]
      rw [hsplit, hpre2]
      simp
    · simp [joinNL]
      omega

theorem readDataLoop_close_marker {input : List Char} (ls : List (List Char))
    (t rest : List Char) (hnlt : '\n' ∉ t)
    (hlent : t.length ≤ LINE_BUFFER_SIZE - 4) :
    ∀ (d : DecSt) (fuel : Nat),
      input.drop d.pos = joinNL ls ++ '[' :: '/' :: t ++ '\n' :: rest →
      (∀ l ∈ ls, hexLineOk l) →
      readDataLoop input (fuel + ls.length + 1) d =
        some (.ok (dataExitState d ((joinNL ls).length + (t.length + 3)) (hexBytes ls),
                   '[' :: '/' :: t ++ ['\n'])) := by
  induction ls with
  | nil =>
    intro d fuel h _
    have h0 : input.drop d.pos = '[' :: '/' :: t ++ '\n' :: rest := by
      simpa [joinNL] using h
    simp only [List.length_nil, Nat.add_zero]
    simp only [readDataLoop, readSectionLine_close h0 hnlt hlent]
    simp [joinNL, hexBytes, dataExitState]
  | cons l ls2 ih =>
    intro d fuel h hok
    have hlok := hok l (by simp)
    obtain ⟨hne, hnl, hcm, hlen, hscan⟩ := hlok
    have hdrop : input.drop d.pos =
        l ++ '\n' :: (joinNL ls2 ++ '[' :: '/' :: t ++ '\n' :: rest) := by
      simpa [joinNL] using h
    have hplain : plainLine l := ⟨hnl, hcm, hlen⟩
    have hfuel : fuel + (l :: ls2).length + 1 = (fuel + ls2.length + 1) + 1 := by
      simp
      omega
    have hbufne : l.isEmpty = false := by
      simp [List.isEmpty_iff, hne]
    have hih := ih {d with pos := d.pos + (l.length + 1), dataBuf := d.dataBuf ++ (hexScanLine l).1} fuel (by simpa using drop_line hdrop) (fun x hx => hok x (by simp [hx]))
    rw [hfuel, readDataLoop.eq_2, readSectionLine_content hdrop hplain]
    dsimp only
    rw [hbufne]
    simp only [Bool.false_eq_true, if_false, hscan, if_true]
    rw [hih]
    simp only [dataExitState, hexBytes, joinNL]
    simp
    omega

/-- C5 (amended): for every hex data block whose terminating line is the
enclosing packet section's close marker (no intervening blank line — the
newline at `d.pos - 1` is the terminator of the preceding `data=` or hex
line), `read_data` rewinds the read position by the byte length of the
close-marker line *including its newline terminator, plus one extra byte*
(`strlen(buf) + 1`, the stored buffer containing the newline), landing on
the preceding line's newline; that byte is then re-read as an ignored
empty content line, after which the enclosing section-close detection
still observes the marker. -/
theorem c5_amended_rewind_reobserve (input : List Char)
    (ls : List (List Char)) (t2 rest : List Char) (d : DecSt) (fuel : Nat)
    (hbuf : d.dataBuf = []) (hpos : 1 ≤ d.pos)
    (h : input.drop (d.pos - 1) =
      '\n' :: (joinNL ls ++ '[' :: '/' :: ("PACKET".toList ++ t2) ++ '\n' :: rest))
    (hls : ∀ l ∈ ls, hexLineOk l)
    (hnlt : '\n' ∉ t2) (hlent : t2.length ≤ LINE_BUFFER_SIZE - 10) :
    readData input (fuel + ls.length + 1) d =
      some (.ok (rewindState d (d.pos - 1 + (joinNL ls).length) (hexBytes ls),
                 ((d.dataBuf ++ hexBytes ls).length : Int))) ∧
    readSectionLine input
        (rewindState d (d.pos - 1 + (joinNL ls).length) (hexBytes ls)) =
      (.content [],
       rewindState d (d.pos - 1 + (joinNL ls).length + 1) (hexBytes ls)) ∧
    readSectionLine input
        (rewindState d (d.pos - 1 + (joinNL ls).length + 1) (hexBytes ls)) =
      (.close ('[' :: '/' :: ("PACKET".toList ++ t2) ++ ['\n']),
       rewindState d
         (d.pos - 1 + (joinNL ls).length + 1 + (("PACKET".toList ++ t2).length + 3))
         (hexBytes ls)) := by
  set t : List Char := "PACKET".toList ++ t2 with ht
  have hnlt2 : '\n' ∉ t := by
    rw [ht]
    simp only [List.mem_append, not_or]
    exact ⟨by decide, hnlt⟩
  have hlent2 : t.length ≤ LINE_BUFFER_SIZE - 4 := by
    rw [ht]
    simp only [List.length_append]
    have : ("PACKET".toList : List Char).length = 6 := by decide
    unfold LINE_BUFFER_SIZE at hlent ⊢
    omega
  -- the stream seen from d.pos
  have hdrop0 : input.drop d.pos = joinNL ls ++ '[' :: '/' :: t ++ '\n' :: rest := by
    have hsplit : d.pos = (d.pos - 1) + 1 := by omega
    rw [hsplit, ← List.drop_drop, h]
    simp
  -- the loop result
  have hloop := readDataLoop_close_marker ls t rest hnlt2 hlent2 d fuel hdrop0 hls
  -- the marker line is a "[/PACKET" prefix
  have hpfx : packetCloseLit.isPrefixOf ('[' :: '/' :: t ++ ['\n']) = true := by
    rw [ht]
    have hsh : '[' :: '/' :: ("PACKET".toList ++ t2) ++ ['\n'] =
        packetCloseLit ++ (t2 ++ ['\n']) := by
      simp [packetCloseLit]
    rw [hsh]
    exact List.isPrefixOf_iff_prefix.mpr (List.prefix_append _ _)
  -- read_data's result
  have hrd : readData input (fuel + ls.length + 1) d =
      some (.ok (rewindState d (d.pos - 1 + (joinNL ls).length) (hexBytes ls),
                 ((d.dataBuf ++ hexBytes ls).length : Int))) := by
    unfold readData
    rw [hbuf]
    simp only [List.isEmpty_nil, Bool.not_false, if_true, hloop]
    have hblen : ('[' :: '/' :: t ++ ['\n']).length = t.length + 3 := by
      simp
    simp only [hpfx, if_true, dataExitState, rewindState, hblen]
    have harith : d.pos + ((joinNL ls).length + (t.length + 3)) - (t.length + 3 + 1) =
        d.pos - 1 + (joinNL ls).length := by omega
    rw [hbuf]
    simp [harith]
  refine ⟨hrd, ?_, ?_⟩
  -- the byte at the rewound position is the preceding newline
  · obtain ⟨pre, hpre, hprelen⟩ := joinNL_snoc_nl ls
    have hdroprw : input.drop (d.pos - 1 + (joinNL ls).length) =
        '\n' :: ('[' :: '/' :: t ++ '\n' :: rest) := by
      rw [← List.drop_drop, h]
      have hre : '\n' :: (joinNL ls ++ '[' :: '/' :: t ++ '\n' :: rest) =
          pre ++ (['\n'] ++ ('[' :: '/' :: t ++ '\n' :: rest)) := by
        have : '\n' :: (joinNL ls ++ '[' :: '/' :: t ++ '\n' :: rest) =
            ('\n' :: joinNL ls) ++ ('[' :: '/' :: t ++ '\n' :: rest) := by simp
        rw [this, hpre]
        simp
      rw [hre, List.drop_left' hprelen]
      simp
    have hdrop2 : input.drop (rewindState d (d.pos - 1 + (joinNL ls).length)
        (hexBytes ls)).pos = [] ++ '\n' :: ('[' :: '/' :: t ++ '\n' :: rest) := by
      simpa [rewindState] using hdroprw
    have := readSectionLine_content hdrop2 (by exact ⟨by simp, by decide, by simp [LINE_BUFFER_SIZE]⟩)
    rw [this]
    simp [rewindState]
  -- and the close marker is observed again right after it
  · obtain ⟨pre, hpre, hprelen⟩ := joinNL_snoc_nl ls
    have hdroprw : input.drop (d.pos - 1 + (joinNL ls).length + 1) =
        '[' :: '/' :: t ++ '\n' :: rest := by
      have hshift : d.pos - 1 + (joinNL ls).length + 1 =
          (d.pos - 1) + ((joinNL ls).length + 1) := by omega
      rw [hshift, ← List.drop_drop, h]
      have hre : '\n' :: (joinNL ls ++ '[' :: '/' :: t ++ '\n' :: rest) =
          ('\n' :: joinNL ls) ++ ('[' :: '/' :: t ++ '\n' :: rest) := by simp
      rw [hre]
      exact List.drop_left' (by simp)
    have hdrop2 : input.drop (rewindState d (d.pos - 1 + (joinNL ls).length + 1)
        (hexBytes ls)).pos = '[' :: '/' :: t ++ '\n' :: rest := by
      simpa [rewindState] using hdroprw
    have := readSectionLine_close hdrop2 hnlt2 hlent2
    rw [this]
    simp [rewindState]

/-- Witness for C5 (amended): the block `01` terminated by `[/PACKET]`
inside `data=\n01\n[/PACKET]\n`, read from position 6. -/
theorem c5_amended_rewind_reobserve_witness :
    readData ("data=\n01\n[/PACKET]\n".toList) 2 {sec := 3, pos := 6} =
      some (.ok (rewindState {sec := 3, pos := 6} 8 [1], 1)) ∧
    readSectionLine ("data=\n01\n[/PACKET]\n".toList)
        (rewindState {sec := 3, pos := 6} 8 [1]) =
      (.content [], rewindState {sec := 3, pos := 6} 9 [1]) ∧
    readSectionLine ("data=\n01\n[/PACKET]\n".toList)
        (rewindState {sec := 3, pos := 6} 9 [1]) =
      (.close ("[/PACKET]\n".toList), rewindState {sec := 3, pos := 6} 19 [1]) := by
  have := c5_amended_rewind_reobserve ("data=\n01\n[/PACKET]\n".toList)
    [['0','1']] ("]".toList) [] {sec := 3, pos := 6} 0 (by decide) (by decide)
    (by decide)
    (by intro l hl
        rw [List.mem_singleton] at hl
        subst hl
        exact ⟨by decide, by decide, by decide, by decide, by decide⟩)
    (by decide) (by decide)
  simpa using this

/-! ### Decimal printer/parser toolbox -/

theorem digitChar_mem (n : Nat) : digitChar n ∈ decDigits := by
  unfold digitChar
  split <;> decide

theorem digitChar_val (n : Nat) (h : n < 10) : (digitChar n).toNat - 48 = n := by
  interval_cases n <;> decide

theorem digitsOfAux_mem (fuel n : Nat) : ∀ c ∈ digitsOfAux fuel n, c ∈ decDigits := by
  induction fuel generalizing n with
  | zero => simp [digitsOfAux]
  | succ f ih =>
    intro c hc
    unfold digitsOfAux at hc
    by_cases h : n < 10
    · rw [if_pos h] at hc
      simp at hc
      subst hc
      exact digitChar_mem n
    · rw [if_neg h] at hc
      simp at hc
      rcases hc with hc | hc
      · exact ih (n / 10) c hc
      · subst hc
        exact digitChar_mem (n % 10)

theorem digitsOf_mem (n : Nat) : ∀ c ∈ digitsOf n, c ∈ decDigits :=
  digitsOfAux_mem (n + 1) n

theorem digitsVal_snoc (a : List Char) (c : Char) :
    digitsVal (a ++ [c]) = 10 * digitsVal a + (c.toNat - 48) := by
  simp [digitsVal, List.foldl_append]

theorem digitsOfAux_val (fuel : Nat) : ∀ n, n < fuel →
    digitsVal (digitsOfAux fuel n) = n := by
  induction fuel with
  | zero => omega
  | succ f ih =>
    intro n hn
    unfold digitsOfAux
    by_cases h : n < 10
    · rw [if_pos h]
      simp [digitsVal]
      exact digitChar_val n h
    · rw [if_neg h]
      rw [digitsVal_snoc]
      have hd : n / 10 < n := Nat.div_lt_self (by omega) (by omega)
      rw [ih (n / 10) (by omega)]
      rw [digitChar_val (n % 10) (Nat.mod_lt n (by omega))]
      omega

theorem digitsVal_digitsOf (n : Nat) : digitsVal (digitsOf n) = n :=
  digitsOfAux_val (n + 1) n (by omega)

theorem digitsOfAux_ne_nil (fuel n : Nat) (h : 0 < fuel) :
    digitsOfAux fuel n ≠ [] := by
  match fuel with
  | f + 1 =>
    unfold digitsOfAux
    by_cases hn : n < 10
    · simp [hn]
    · simp [hn]

theorem digitsOf_ne_nil (n : Nat) : digitsOf n ≠ [] :=
  digitsOfAux_ne_nil (n + 1) n (by omega)

theorem digitsOfAux_irrel (f1 : Nat) : ∀ f2 n, n < f1 → n < f2 →
    digitsOfAux f1 n = digitsOfAux f2 n := by
  induction f1 with
  | zero => omega
  | succ g ih =>
    intro f2 n h1 h2
    match f2 with
    | f + 1 =>
      unfold digitsOfAux
      by_cases hn : n < 10
      · simp [hn]
      · simp only [hn, if_false]
        have hd : n / 10 < n := Nat.div_lt_self (by omega) (by omega)
        rw [ih f (n / 10) (by omega) (by omega)]

theorem digitsOf_length_le (k : Nat) : ∀ n, n < 10 ^ (k + 1) →
    (digitsOf n).length ≤ k + 1 := by
  induction k with
  | zero =>
    intro n hn
    unfold digitsOf digitsOfAux
    have h : n < 10 := by simpa using hn
    simp [h]
  | succ j ih =>
    intro n hn
    by_cases h : n < 10
    · unfold digitsOf digitsOfAux
      simp [h]
    · have hd : n / 10 < n := Nat.div_lt_self (by omega) (by omega)
      have hstep : digitsOf n = digitsOf (n / 10) ++ [digitChar (n % 10)] := by
        unfold digitsOf
        conv_lhs => unfold digitsOfAux
        rw [if_neg h]
        rw [digitsOfAux_irrel n (n / 10 + 1) (n / 10) (by omega) (by omega)]
      rw [hstep]
      have hdiv : n / 10 < 10 ^ (j + 1) := by
        apply Nat.div_lt_of_lt_mul
        have hp : (10:Nat) ^ (j + 1 + 1) = 10 * 10 ^ (j + 1) := by ring
        rw [← hp]
        exact hn
      have := ih (n / 10) hdiv
      simp
      omega

/-- Character-class facts for decimal digits, used to drive the scanners. -/
theorem decDigits_isDigit : ∀ c ∈ decDigits, c.isDigit = true := by decide

theorem decDigits_not_ws : ∀ c ∈ decDigits, isWS c = false := by decide

theorem decDigits_ne_nl : ∀ c ∈ decDigits, c ≠ '\n' := by decide

theorem decDigits_ne_sign : ∀ c ∈ decDigits, c ≠ '-' ∧ c ≠ '+' := by decide

theorem matchLit_self_append (lit rest : List Char) :
    matchLit lit (lit ++ rest) = .ok rest := by
  induction lit with
  | nil => simp [matchLit]
  | cons c cs ih => simp [matchLit, ih]

theorem scanDecAfter_digits (ds : List Char) (hne : ds ≠ [])
    (hmem : ∀ c ∈ ds, c ∈ decDigits) :
    scanDecAfter ds = .ok ((digitsVal ds : Int), []) := by
  obtain ⟨c, tl, rfl⟩ := List.exists_cons_of_ne_nil hne
  have hc := hmem c (by simp)
  have hnws : isWS c = false := decDigits_not_ws c hc
  have hdig : ∀ x ∈ c :: tl, Char.isDigit x = true :=
    fun x hx => decDigits_isDigit x (hmem x hx)
  have hdrop : (c :: tl).dropWhile isWS = c :: tl := by
    rw [List.dropWhile_cons]
    simp [hnws]
  have hsign : (c = '-' || c = '+') = false := by
    obtain ⟨h1, h2⟩ := decDigits_ne_sign c hc
    simp [h1, h2]
  have htake : (c :: tl).takeWhile Char.isDigit = c :: tl :=
    List.takeWhile_eq_self_iff.mpr hdig
  unfold scanDecAfter
  rw [hdrop]
  dsimp only
  rw [hsign]
  simp only [Bool.false_eq_true, if_false]
  rw [htake]
  have hnegc : (c = '-') = False := by
    simp [(decDigits_ne_sign c hc).1]
  simp [hnegc, htake]

theorem drop_chunk {input a b : List Char} {p : Nat}
    (h : input.drop p = a ++ b) : input.drop (p + a.length) = b := by
  rw [← List.drop_drop, h]
  exact List.drop_left' rfl

theorem scanIntD_lit_digits (lit ds : List Char) (hne : ds ≠ [])
    (hmem : ∀ c ∈ ds, c ∈ decDigits) :
    scanIntD lit (lit ++ ds) = .ok ((digitsVal ds : Int)) := by
  unfold scanIntD
  rw [matchLit_self_append]
  dsimp only
  rw [scanDecAfter_digits ds hne hmem]

/-! ### Section-start toolbox -/

theorem readSectionStart_eof {input : List Char} {d : DecSt}
    (h : input.drop d.pos = []) :
    readSectionStart input d = (AVERROR_EOF, d) := by
  unfold readSectionStart getLine2
  rw [h]
  simp [takeLine]

theorem readSectionStart_line {input l rest : List Char} {d : DecSt}
    (h : input.drop d.pos = l ++ '\n' :: rest) (hnl : '\n' ∉ l)
    (hlen : l.length ≤ LINE_BUFFER_SIZE - 2) :
    readSectionStart input d =
      (if sectionOfStored (l ++ ['\n']) = SEC_NONE
       then ((SEC_NONE : Int), {d with pos := d.pos + (l.length + 1)})
       else (sectionOfStored (l ++ ['\n']),
             {d with pos := d.pos + (l.length + 1), sec := sectionOfStored (l ++ ['\n'])})) := by
  unfold readSectionStart
  rw [getLine2_of_line h hnl hlen]
  dsimp only
  have hne : (l ++ ['\n']).isEmpty = false := by
    simp [List.isEmpty_iff]
  rw [hne]
  simp

/-! ### Minimal format / stream sections -/

theorem readSectionFormat_minimal {input rest : List Char} (n : Nat)
    (d : DecSt) (fuel : Nat)
    (h : input.drop d.pos =
      nbStreamsLit ++ digitsOf n ++ '\n' :: ("[/FORMAT]\n".toList ++ rest))
    (hn : n ≤ 32) :
    readSectionFormat input (fuel + 2) d =
      some (.ok (formatExitState d n ((digitsOf n).length + 22))) := by
  have hds := digitsOf_mem n
  have hdlen : (digitsOf n).length ≤ 2 := digitsOf_length_le 1 n (by omega)
  have hplain : plainLine (nbStreamsLit ++ digitsOf n) := by
    refine ⟨?_, ?_, ?_⟩
    · simp only [List.mem_append, not_or]
      refine ⟨by decide, ?_⟩
      intro hmem
      exact absurd rfl (decDigits_ne_nl '\n' (hds '\n' hmem))
    · rfl
    · simp only [List.length_append]
      have h11 : (nbStreamsLit : List Char).length = 11 := by decide
      unfold LINE_BUFFER_SIZE
      omega
  have hdrop1 : input.drop d.pos =
      (nbStreamsLit ++ digitsOf n) ++ '\n' :: ("[/FORMAT]\n".toList ++ rest) := by
    simpa using h
  have hscan : scanIntD nbStreamsLit (nbStreamsLit ++ digitsOf n) = .ok ((n : Int)) := by
    rw [scanIntD_lit_digits nbStreamsLit (digitsOf n) (digitsOf_ne_nil n) hds,
        digitsVal_digitsOf]
  have heq : fuel + 2 = (fuel + 1) + 1 := by omega
  rw [heq, readSectionFormat.eq_2, readSectionLine_content hdrop1 hplain]
  dsimp only
  rw [hscan]
  dsimp only
  have hbound : ((n : Int) < 0 || (MAX_NB_STREAMS : Int) < (n : Int)) = false := by
    simp only [MAX_NB_STREAMS, Bool.or_eq_false_iff, decide_eq_false_iff_not]
    constructor
    · omega
    · push_cast
      omega
  rw [hbound]
  simp only [Bool.false_eq_true, if_false]
  have hdrop2 : input.drop (d.pos + ((nbStreamsLit ++ digitsOf n).length + 1)) =
      '[' :: '/' :: "FORMAT]".toList ++ '\n' :: rest := by
    exact drop_line hdrop1
  rw [readSectionFormat.eq_2]
  rw [@readSectionLine_close input ("FORMAT]".toList) rest _ hdrop2
      (by decide) (by decide)]
  simp only [formatExitState]
  simp [Int.toNat_natCast]
  have h11 : (nbStreamsLit : List Char).length = 11 := by decide
  omega

theorem readSectionStream_index_only (reg : Registry) {input rest : List Char}
    (i : Nat) (d : DecSt) (fuel : Nat)
    (h : input.drop d.pos =
      indexLit ++ digitsOf i ++ '\n' :: ("[/STREAM]\n".toList ++ rest))
    (hi : i ≤ d.streams.length) (hibound : i < 1000000000) :
    readSectionStream reg input (fuel + 2) d =
      some (.ok (streamExitState d i ((digitsOf i).length + 17))) := by
  have hds := digitsOf_mem i
  have hdlen : (digitsOf i).length ≤ 9 := digitsOf_length_le 8 i (by omega)
  have hplain : plainLine (indexLit ++ digitsOf i) := by
    refine ⟨?_, ?_, ?_⟩
    · simp only [List.mem_append, not_or]
      refine ⟨by decide, ?_⟩
      intro hmem
      exact absurd rfl (decDigits_ne_nl '\n' (hds '\n' hmem))
    · rfl
    · simp only [List.length_append]
      have h6 : (indexLit : List Char).length = 6 := by decide
      unfold LINE_BUFFER_SIZE
      omega
  have hscan : scanIntD indexLit (indexLit ++ digitsOf i) = .ok ((i : Int)) := by
    rw [scanIntD_lit_digits indexLit (digitsOf i) (digitsOf_ne_nil i) hds,
        digitsVal_digitsOf]
  have hcodec : matchLit codecNameLit (indexLit ++ digitsOf i) = .fail := rfl
  have hne_ex : (indexLit ++ digitsOf i) = extradataLit ↔ False := by
    constructor
    · intro hcontra
      have h1 : (indexLit ++ digitsOf i).head? = some 'i' := rfl
      rw [hcontra] at h1
      exact absurd h1 (by decide)
    · intro hfalse
      exact hfalse.elim
  have hratio : scanRatio timeBaseLit (indexLit ++ digitsOf i) = none := rfl
  have hdrop1 : input.drop ({d with dataBuf := ([] : List Nat)} : DecSt).pos =
      (indexLit ++ digitsOf i) ++ '\n' :: ("[/STREAM]\n".toList ++ rest) := by
    simpa using h
  unfold readSectionStream
  have heq : fuel + 2 = (fuel + 1) + 1 := by omega
  rw [heq, readSectionStreamLoop.eq_2, readSectionLine_content hdrop1 hplain]
  dsimp only
  rw [hscan]
  dsimp only
  have hdrop2 : input.drop (({d with dataBuf := ([] : List Nat)} : DecSt).pos +
      ((indexLit ++ digitsOf i).length + 1)) =
      '[' :: '/' :: "STREAM]".toList ++ '\n' :: rest :=
    drop_line hdrop1
  by_cases hcase : i = d.streams.length
  · have hifc : ((i : Int) = (d.streams.length : Int)) = True := by
      simp [hcase]
    simp only [hifc, if_true]
    have c1 : ¬((i : Int) < 0) := by omega
    have c2 : ¬(((d.streams ++ [newStream]).length : Int) ≤ (i : Int)) := by
      simp only [List.length_append, List.length_cons, List.length_nil]
      push_cast
      omega
    have hrange : ((i : Int) < 0 || ((d.streams ++ [newStream]).length : Int) ≤ (i : Int)) = false := by
      simp [c1, c2]
      omega
    rw [hrange]
    simp only [Bool.false_eq_true, if_false]
    simp only [Int.toNat_natCast]
    unfold streamChainStep
    rw [hcodec]
    dsimp only
    rw [if_neg (by simp [hne_ex])]
    rw [hratio]
    dsimp only
    rw [readSectionStreamLoop.eq_2]
    rw [@readSectionLine_close input ("STREAM]".toList) rest _ hdrop2
        (by decide) (by decide)]
    dsimp only
    simp only [streamExitState]
    have h6 : (indexLit : List Char).length = 6 := by decide
    simp [hcase]
    omega
  · have hilt : i < d.streams.length := by omega
    have hifc : ((i : Int) = (d.streams.length : Int)) = False := by
      simp
      omega
    simp only [hifc, if_false]
    have c1 : ¬((i : Int) < 0) := by omega
    have c2 : ¬((d.streams.length : Int) ≤ (i : Int)) := by
      omega
    have hrange : ((i : Int) < 0 || ((d.streams).length : Int) ≤ (i : Int)) = false := by
      simp [c1, c2]
    rw [hrange]
    simp only [Bool.false_eq_true, if_false]
    simp only [Int.toNat_natCast]
    unfold streamChainStep
    rw [hcodec]
    dsimp only
    rw [if_neg (by simp [hne_ex])]
    rw [hratio]
    dsimp only
    rw [readSectionStreamLoop.eq_2]
    rw [@readSectionLine_close input ("STREAM]".toList) rest _ hdrop2
        (by decide) (by decide)]
    dsimp only
    simp only [streamExitState]
    have h6 : (indexLit : List Char).length = 6 := by decide
    have hneq : ¬(i = d.streams.length) := hcase
    simp [hneq]
    omega

/-! ### Header stream loop -/

theorem streamSecsText_cons (i : Nat) (idxs : List Nat) :
    streamSecsText (i :: idxs) = streamSecText i ++ streamSecsText idxs := by
  simp [streamSecsText]

theorem streamSecText_shape (i : Nat) :
    streamSecText i = "[STREAM]".toList ++ '\n' ::
      (indexLit ++ digitsOf i ++ '\n' :: "[/STREAM]\n".toList) := by
  simp [streamSecText, indexLit]

theorem streamSecText_length (i : Nat) :
    (streamSecText i).length = (digitsOf i).length + 26 := by
  simp [streamSecText]

theorem headerStreamLoop_growth (reg : Registry) {input : List Char}
    (idxs : List Nat) :
    ∀ (d : DecSt) (n : Int) (fuel : Nat) (L : Nat) (tail : List Char),
      growth d.streams.length idxs = some L →
      (∀ i ∈ idxs, i < 1000000000) →
      input.drop d.pos = streamSecsText idxs ++ tail →
      (tail = [] ∨ ∃ l rest2, tail = l ++ '\n' :: rest2 ∧ plainLine l ∧
        sectionOfStored (l ++ ['\n']) ≠ SEC_STREAM) →
      ∃ d2, headerStreamLoop reg input (fuel + idxs.length + 2) d n =
        some ((if n + (idxs.length : Int) = (L : Int) then 0 else AVERROR_INVALIDDATA), d2) ∧
        d2.streams.length = L := by
  induction idxs with
  | nil =>
    intro d n fuel L tail hgrow hbound hdrop htail
    have hL : d.streams.length = L := by
      unfold growth at hgrow
      exact Option.some.inj hgrow
    subst hL
    have hdrop0 : input.drop d.pos = tail := by
      simpa [streamSecsText] using hdrop
    have hfin : ∀ d2 : DecSt, d2.streams = d.streams →
        (if n ≠ (d2.streams.length : Int) then AVERROR_INVALIDDATA else 0) =
        (if n + ((([] : List Nat).length : Nat) : Int) = (d.streams.length : Int)
         then 0 else AVERROR_INVALIDDATA) := by
      intro d2 hst
      rw [hst]
      by_cases hn : n = (d.streams.length : Int)
      · simp [hn]
      · simp [hn]
    have hshape : fuel + ([] : List Nat).length + 2 = (fuel + 1) + 1 := by simp
    rcases htail with rfl | ⟨l, rest2, rfl, hpl, hsec⟩
    · refine ⟨d, ?_, rfl⟩
      rw [hshape, headerStreamLoop.eq_2, readSectionStart_eof hdrop0]
      dsimp only
      rw [if_pos (by decide)]
      rw [hfin d rfl]
    · have hstart := readSectionStart_line hdrop0 hpl.1 hpl.2.2
      by_cases hs0 : sectionOfStored (l ++ ['\n']) = SEC_NONE
      · refine ⟨{d with pos := d.pos + (l.length + 1)}, ?_, rfl⟩
        rw [hshape, headerStreamLoop.eq_2, hstart]
        rw [if_pos hs0]
        dsimp only
        rw [if_pos (by simp [SEC_NONE, SEC_STREAM])]
        rw [hfin _ rfl]
      · refine ⟨{d with sec := sectionOfStored (l ++ ['\n']), pos := d.pos + (l.length + 1)}, ?_, rfl⟩
        rw [hshape, headerStreamLoop.eq_2, hstart]
        rw [if_neg hs0]
        dsimp only
        rw [if_pos hsec]
        rw [hfin _ rfl]
  | cons i idxs2 ih =>
    intro d n fuel L tail hgrow hbound hdrop htail
    have hb := hbound i (by simp)
    -- the [STREAM] start line
    have hdropS : input.drop d.pos = "[STREAM]".toList ++ '\n' ::
        (indexLit ++ digitsOf i ++ '\n' :: "[/STREAM]\n".toList ++
         (streamSecsText idxs2 ++ tail)) := by
      rw [hdrop, streamSecsText_cons, streamSecText_shape]
      simp
    have hstart := readSectionStart_line hdropS (by decide) (by decide)
    have hsecS : sectionOfStored ("[STREAM]".toList ++ ['\n']) = SEC_STREAM := by decide
    have hshape : fuel + (i :: idxs2).length + 2 = (fuel + idxs2.length + 2) + 1 := by
      simp
      omega
    rw [hshape, headerStreamLoop.eq_2, hstart, hsecS]
    rw [if_neg (show ¬((SEC_STREAM : Int) = SEC_NONE) by decide)]
    dsimp only
    rw [if_neg (show ¬((SEC_STREAM : Int) ≠ SEC_STREAM) by simp)]
    -- the stream section itself
    have hlen8 : ("[STREAM]".toList : List Char).length = 8 := by decide
    have hdropB : input.drop (d.pos + 9) =
        indexLit ++ digitsOf i ++ '\n' :: ("[/STREAM]\n".toList ++
         (streamSecsText idxs2 ++ tail)) := by
      have h2 : input.drop d.pos = ("[STREAM]".toList ++ ['\n']) ++
          (indexLit ++ digitsOf i ++ '\n' :: ("[/STREAM]\n".toList ++
           (streamSecsText idxs2 ++ tail))) := by
        rw [hdropS]
        simp
      have h3 := drop_chunk h2
      simpa using h3
    -- growth tells us the index is valid
    have hgrow2 := hgrow
    unfold growth at hgrow2
    by_cases hcase : i = d.streams.length
    · rw [if_pos hcase] at hgrow2
      have hi : i ≤ d.streams.length := by omega
      have hsec := readSectionStream_index_only reg i
        {d with pos := d.pos + (("[STREAM]".toList : List Char).length + 1), sec := SEC_STREAM}
        (fuel + idxs2.length) (by simpa [hlen8] using hdropB) (by simpa using hi) hb
      have hfuel2 : fuel + idxs2.length + 2 = (fuel + idxs2.length) + 2 := by omega
      rw [hfuel2, hsec]
      dsimp only
      -- recurse
      have hihpre : growth (streamExitState
          {d with pos := d.pos + (("[STREAM]".toList : List Char).length + 1), sec := SEC_STREAM}
          i ((digitsOf i).length + 17)).streams.length idxs2 = some L := by
        simp [streamExitState, hcase]
        exact hgrow2
      have hdropC : input.drop (streamExitState
          {d with pos := d.pos + (("[STREAM]".toList : List Char).length + 1), sec := SEC_STREAM}
          i ((digitsOf i).length + 17)).pos = streamSecsText idxs2 ++ tail := by
        simp only [streamExitState, hlen8]
        have h2 : input.drop (d.pos + 9) =
            (indexLit ++ digitsOf i ++ '\n' :: "[/STREAM]\n".toList) ++
            (streamSecsText idxs2 ++ tail) := by
          rw [hdropB]
          simp
        have h3 := drop_chunk h2
        have hlenB : (indexLit ++ digitsOf i ++ '\n' :: "[/STREAM]\n".toList).length =
            (digitsOf i).length + 17 := by
          simp [indexLit]
        rw [hlenB] at h3
        have harith : d.pos + 9 + ((digitsOf i).length + 17) =
            d.pos + (8 + 1) + ((digitsOf i).length + 17) := by omega
        rw [← harith]
        exact h3
      obtain ⟨d2, hloop, hlen⟩ := ih _ (n + 1) fuel L tail hihpre
        (fun x hx => hbound x (by simp [hx])) hdropC htail
      refine ⟨d2, ?_, hlen⟩
      rw [hloop]
      have hcond : ((n + 1) + (idxs2.length : Int) = (L : Int)) ↔
          (n + ((i :: idxs2).length : Int) = (L : Int)) := by
        simp
        omega
      rw [if_congr hcond rfl rfl]
    · rw [if_neg hcase] at hgrow2
      by_cases hlt : i < d.streams.length
      · rw [if_pos hlt] at hgrow2
        have hi : i ≤ d.streams.length := by omega
        have hsec := readSectionStream_index_only reg i
          {d with pos := d.pos + (("[STREAM]".toList : List Char).length + 1), sec := SEC_STREAM}
          (fuel + idxs2.length) (by simpa [hlen8] using hdropB) (by simpa using hi) hb
        have hfuel2 : fuel + idxs2.length + 2 = (fuel + idxs2.length) + 2 := by omega
        rw [hfuel2, hsec]
        dsimp only
        have hihpre : growth (streamExitState
            {d with pos := d.pos + (("[STREAM]".toList : List Char).length + 1), sec := SEC_STREAM}
            i ((digitsOf i).length + 17)).streams.length idxs2 = some L := by
          simp [streamExitState, hcase]
          exact hgrow2
        have hdropC : input.drop (streamExitState
            {d with pos := d.pos + (("[STREAM]".toList : List Char).length + 1), sec := SEC_STREAM}
            i ((digitsOf i).length + 17)).pos = streamSecsText idxs2 ++ tail := by
          simp only [streamExitState, hlen8]
          have h2 : input.drop (d.pos + 9) =
              (indexLit ++ digitsOf i ++ '\n' :: "[/STREAM]\n".toList) ++
              (streamSecsText idxs2 ++ tail) := by
            rw [hdropB]
            simp
          have h3 := drop_chunk h2
          have hlenB : (indexLit ++ digitsOf i ++ '\n' :: "[/STREAM]\n".toList).length =
              (digitsOf i).length + 17 := by
            simp [indexLit]
          rw [hlenB] at h3
          have harith : d.pos + 9 + ((digitsOf i).length + 17) =
              d.pos + (8 + 1) + ((digitsOf i).length + 17) := by omega
          rw [← harith]
          exact h3
        obtain ⟨d2, hloop, hlen⟩ := ih _ (n + 1) fuel L tail hihpre
          (fun x hx => hbound x (by simp [hx])) hdropC htail
        refine ⟨d2, ?_, hlen⟩
        rw [hloop]
        have hcond : ((n + 1) + (idxs2.length : Int) = (L : Int)) ↔
            (n + ((i :: idxs2).length : Int) = (L : Int)) := by
          simp
          omega
        rw [if_congr hcond rfl rfl]
      · rw [if_neg hlt] at hgrow2
        exact absurd hgrow2 (by simp)

theorem padStreams_nil_length (n : Nat) : (padStreams [] n).length = n := by
  simp [padStreams]

/-- C10: for every input beginning with a container header section
declaring `nb ≤ 32` streams followed by minimal STREAM sections over any
valid index sequence `idxs` (each index selecting an existing stream or
appending the next one, so the final stream count is `L` = declared plus
lazily appended) and then anything that is not a further STREAM section,
`ffprobe_read_header` succeeds exactly when the number of STREAM sections
read equals the total stream count, and fails with `AVERROR_INVALIDDATA`
on any mismatch. -/
theorem c10_stream_count_checked (reg : Registry) (nb : Nat)
    (idxs : List Nat) (L : Nat) (tail : List Char) (fuel : Nat)
    (hnb : nb ≤ 32) (hgrow : growth nb idxs = some L)
    (hidx : ∀ i ∈ idxs, i < 1000000000)
    (htail : tail = [] ∨ ∃ l rest2, tail = l ++ '\n' :: rest2 ∧ plainLine l ∧
       sectionOfStored (l ++ ['\n']) ≠ SEC_STREAM) :
    ∃ d2, ffprobeReadHeader reg (formatText nb ++ (streamSecsText idxs ++ tail))
        (fuel + idxs.length + 2) FF_COMPLIANCE_EXPERIMENTAL {} =
      some ((if (idxs.length : Int) = (L : Int) then 0 else AVERROR_INVALIDDATA), d2) ∧
      d2.streams.length = L := by
  set input : List Char := formatText nb ++ (streamSecsText idxs ++ tail) with hinput
  have hsplitlit : ("[FORMAT]\nnb_streams=".toList : List Char) =
      "[FORMAT]".toList ++ '\n' :: nbStreamsLit := by decide
  have hshape0 : input = "[FORMAT]".toList ++ '\n' ::
      (nbStreamsLit ++ digitsOf nb ++ '\n' ::
        ("[/FORMAT]\n".toList ++ (streamSecsText idxs ++ tail))) := by
    rw [hinput]
    unfold formatText
    rw [hsplitlit]
    simp
  have hdrop0 : input.drop (({} : DecSt).pos) = "[FORMAT]".toList ++ '\n' ::
      (nbStreamsLit ++ digitsOf nb ++ '\n' ::
        ("[/FORMAT]\n".toList ++ (streamSecsText idxs ++ tail))) := by
    simpa using hshape0
  have hstart := readSectionStart_line hdrop0 (by decide) (by decide)
  have hsecF : sectionOfStored ("[FORMAT]".toList ++ ['\n']) = SEC_FORMAT := by decide
  unfold ffprobeReadHeader
  rw [if_neg (show ¬(FF_COMPLIANCE_EXPERIMENTAL < FF_COMPLIANCE_EXPERIMENTAL) by omega)]
  dsimp only
  rw [hstart, hsecF]
  rw [if_neg (show ¬((SEC_FORMAT : Int) = SEC_NONE) by decide)]
  dsimp only
  rw [if_neg (show ¬((SEC_FORMAT : Int) < 0) by decide)]
  rw [if_neg (show ¬((SEC_FORMAT : Int) ≠ SEC_FORMAT) by simp)]
  set stF : DecSt := { sec := SEC_FORMAT, dataBuf := [], packetNb := 0, streams := [], noheader := false, pos := 0 + ("[FORMAT]".toList.length + 1) } with hstF
  -- the format section
  have hdropF : input.drop stF.pos =
      nbStreamsLit ++ digitsOf nb ++ '\n' ::
        ("[/FORMAT]\n".toList ++ (streamSecsText idxs ++ tail)) := by
    have h2 : input.drop (({} : DecSt).pos) = ("[FORMAT]".toList ++ ['\n']) ++
        (nbStreamsLit ++ digitsOf nb ++ '\n' ::
          ("[/FORMAT]\n".toList ++ (streamSecsText idxs ++ tail))) := by
      rw [hdrop0]
      simp
    have h3 := drop_chunk h2
    rw [hstF]
    simpa using h3
  have hfmt := readSectionFormat_minimal nb stF (fuel + idxs.length) hdropF hnb
  rw [hfmt]
  dsimp only
  -- the stream loop
  have hexit_len : (formatExitState stF nb ((digitsOf nb).length + 22)).streams.length = nb := by
    rw [hstF]
    simp [formatExitState, padStreams_nil_length]
  have hgrow2 : growth (formatExitState stF nb
      ((digitsOf nb).length + 22)).streams.length idxs = some L := by
    rw [hexit_len]
    exact hgrow
  have hdropS : input.drop (formatExitState stF nb
      ((digitsOf nb).length + 22)).pos = streamSecsText idxs ++ tail := by
    have h2 : input.drop stF.pos =
        (nbStreamsLit ++ digitsOf nb ++ '\n' :: "[/FORMAT]\n".toList) ++
        (streamSecsText idxs ++ tail) := by
      rw [hdropF]
      simp
    have h3 := drop_chunk h2
    have hlenB : (nbStreamsLit ++ digitsOf nb ++ '\n' :: "[/FORMAT]\n".toList).length =
        (digitsOf nb).length + 22 := by
      simp [nbStreamsLit]
    rw [hlenB] at h3
    simpa [formatExitState] using h3
  obtain ⟨d2, hloop, hlen⟩ := headerStreamLoop_growth reg idxs _ 0 fuel L tail
    hgrow2 hidx hdropS htail
  refine ⟨d2, ?_, hlen⟩
  rw [hloop]
  have hcond : ((0 : Int) + (idxs.length : Int) = (L : Int)) ↔
      ((idxs.length : Int) = (L : Int)) := by omega
  rw [if_congr hcond rfl rfl]

theorem c10_stream_count_checked_witness :
    ∃ d2, ffprobeReadHeader testReg (formatText 1 ++ (streamSecsText [0] ++ []))
        (0 + ([0] : List Nat).length + 2) FF_COMPLIANCE_EXPERIMENTAL {} =
      some ((if (([0] : List Nat).length : Int) = ((1 : Nat) : Int) then 0
             else AVERROR_INVALIDDATA), d2) ∧
      d2.streams.length = 1 :=
  c10_stream_count_checked testReg 1 [0] 1 [] 0 (by decide) (by decide)
    (by decide) (Or.inl rfl)

theorem sectionOfStored_nonneg (x : List Char) : 0 ≤ sectionOfStored x := by
  unfold sectionOfStored
  split_ifs <;> decide

/-- C9: noheader mode.  If the first line of the input is any line that is
not the `[FORMAT]` section start (a different recognized section start, or
an unrecognized line), `ffprobe_read_header` succeeds: it returns `0` with
the no-header flag set on the context and no stream descriptor created,
instead of reporting malformed input.  Stream descriptors are then created
lazily during packet reading: from any such no-header state, a later
`[STREAM]` section with `index=0` processed by `read_section` (the packet
reader's workhorse) creates the first stream descriptor. -/
theorem c9_noheader_success (reg : Registry) (l rest : List Char) (fuel : Nat)
    (hplain : plainLine l)
    (hnf : sectionOfStored (l ++ ['\n']) ≠ SEC_FORMAT) :
    (∃ d2, ffprobeReadHeader reg (l ++ '\n' :: rest) fuel FF_COMPLIANCE_EXPERIMENTAL {} =
        some (0, d2) ∧ d2.noheader = true ∧ d2.streams = []) ∧
    (∀ (input2 : List Char) (d2 : DecSt) (fuel2 : Nat) (rest2 : List Char),
      d2.noheader = true → d2.sec = SEC_STREAM → d2.streams = [] →
      input2.drop d2.pos =
        indexLit ++ digitsOf 0 ++ '\n' :: ("[/STREAM]\n".toList ++ rest2) →
      ∃ d3, readSection reg input2 (fuel2 + 2) d2 = some (SEC_STREAM, d3, none) ∧
        d3.streams.length = 1 ∧ d3.noheader = true) := by
  constructor
  · have hdrop : (l ++ '\n' :: rest).drop (({} : DecSt).pos) = l ++ '\n' :: rest := by
      simp
    have hstart := readSectionStart_line hdrop hplain.1 hplain.2.2
    unfold ffprobeReadHeader
    rw [if_neg (show ¬(FF_COMPLIANCE_EXPERIMENTAL < FF_COMPLIANCE_EXPERIMENTAL) by omega)]
    dsimp only
    rw [hstart]
    by_cases hs0 : sectionOfStored (l ++ ['\n']) = SEC_NONE
    · rw [if_pos hs0]
      dsimp only
      rw [if_neg (show ¬((SEC_NONE : Int) < 0) by decide)]
      rw [if_pos (show (SEC_NONE : Int) ≠ SEC_FORMAT by decide)]
      exact ⟨_, rfl, rfl, rfl⟩
    · rw [if_neg hs0]
      dsimp only
      rw [if_neg (not_lt.mpr (sectionOfStored_nonneg (l ++ ['\n'])))]
      rw [if_pos hnf]
      exact ⟨_, rfl, rfl, rfl⟩
  · intro input2 d2 fuel2 rest2 hnh hsec hstreams hdrop2
    have hidx := readSectionStream_index_only reg 0 d2 fuel2 hdrop2
      (by rw [hstreams]; exact Nat.zero_le _) (by omega)
    have hshape : fuel2 + 2 = (fuel2 + 1) + 1 := by omega
    refine ⟨streamExitState d2 0 ((digitsOf 0).length + 17), ?_, ?_, ?_⟩
    · unfold readSection
      rw [hshape, readSectionStartLoop.eq_2, hsec]
      rw [if_neg (show ¬((SEC_STREAM : Int) = 0) by decide)]
      dsimp only
      rw [hsec]
      rw [if_neg (show ¬((SEC_STREAM : Int) = SEC_FORMAT) by decide)]
      rw [if_pos (show (SEC_STREAM : Int) = SEC_STREAM from rfl)]
      rw [← hshape, hidx]
    · simp [streamExitState, hstreams]
    · simp [streamExitState, hnh]

theorem c9_noheader_success_witness :
    ∃ d2, ffprobeReadHeader testReg ("[STREAM]".toList ++ '\n' :: []) 5
        FF_COMPLIANCE_EXPERIMENTAL {} =
      some (0, d2) ∧ d2.noheader = true ∧ d2.streams = [] :=
  (c9_noheader_success testReg "[STREAM]".toList [] 5
    ⟨by decide, by decide, by decide⟩ (by decide)).1

/-- C8: the experimental gate.  If the caller's strictness setting is
stricter than `FF_COMPLIANCE_EXPERIMENTAL`, `ffprobe_read_header` fails
immediately with `AVERROR_EXPERIMENTAL`, returning the context unchanged
(so before reading any input); when the experimental level is enabled the
gate is transparent — the behaviour is identical for every compliant
strictness value; and the experimental error code is distinct from success
and from every other error the decoder produces. -/
theorem c8_experimental_gate (reg : Registry) (input : List Char) (fuel : Nat)
    (strict : Int) (d : DecSt) :
    (FF_COMPLIANCE_EXPERIMENTAL < strict →
      ffprobeReadHeader reg input fuel strict d = some (AVERROR_EXPERIMENTAL, d)) ∧
    (strict ≤ FF_COMPLIANCE_EXPERIMENTAL →
      ffprobeReadHeader reg input fuel strict d =
        ffprobeReadHeader reg input fuel FF_COMPLIANCE_EXPERIMENTAL d) ∧
    (AVERROR_EXPERIMENTAL ≠ 0 ∧ AVERROR_EXPERIMENTAL ≠ AVERROR_EOF ∧
     AVERROR_EXPERIMENTAL ≠ AVERROR_INVALIDDATA ∧
     AVERROR_EXPERIMENTAL ≠ AVERROR_EINVAL) := by
  refine ⟨?_, ?_, by decide⟩
  · intro h
    unfold ffprobeReadHeader
    rw [if_pos h]
  · intro h
    unfold ffprobeReadHeader
    rw [if_neg (not_lt.mpr h),
        if_neg (show ¬(FF_COMPLIANCE_EXPERIMENTAL < FF_COMPLIANCE_EXPERIMENTAL) by omega)]

theorem c8_experimental_gate_witness :
    ffprobeReadHeader testReg [] 3 0 {} = some (AVERROR_EXPERIMENTAL, {}) ∧
    ffprobeReadHeader testReg [] 3 (-5) {} =
      ffprobeReadHeader testReg [] 3 FF_COMPLIANCE_EXPERIMENTAL {} :=
  ⟨(c8_experimental_gate testReg [] 3 0 {}).1 (by decide),
   (c8_experimental_gate testReg [] 3 (-5) {}).2.1 (by decide)⟩

/-! ### fftextdata word-reader toolbox -/

theorem isSpaceTd_ne_nul {c : Char} (h : isSpaceTd c = true) : c ≠ NULc := by
  intro hc
  subst hc
  exact absurd h (by decide)

theorem rwSkip_spaces_eof {input : List Char} (s : List Char) :
    ∀ pos fuel, input.drop pos = s → (∀ c ∈ s, isSpaceTd c = true) →
    s.length + 1 ≤ fuel →
    rwSkip input fuel pos = some (none, pos + s.length) := by
  induction s with
  | nil =>
    intro pos fuel h hsp hfuel
    obtain ⟨f, rfl⟩ : ∃ f, fuel = f + 1 := ⟨fuel - 1, by omega⟩
    rw [rwSkip.eq_2]
    have hr : r8 input pos = (NULc, pos) := by
      unfold r8
      rw [h]
    rw [hr]
    simp
  | cons c s2 ih =>
    intro pos fuel h hsp hfuel
    obtain ⟨f, rfl⟩ : ∃ f, fuel = f + 1 := ⟨fuel - 1, by omega⟩
    rw [rwSkip.eq_2]
    have hr : r8 input pos = (c, pos + 1) := by
      unfold r8
      rw [h]
    have hc := hsp c (by simp)
    rw [hr]
    dsimp only
    rw [if_neg (by simpa using isSpaceTd_ne_nul hc), if_pos hc]
    have hdrop2 : input.drop (pos + 1) = s2 := by
      have := congrArg (List.drop 1) h
      rw [List.drop_drop] at this
      simpa using this
    have hlen : (pos + 1) + s2.length = pos + (c :: s2).length := by
      simp
      omega
    rw [ih (pos + 1) f hdrop2 (fun x hx => hsp x (by simp [hx])) (by simp at hfuel ⊢; omega),
        hlen]

theorem rwSkip_nonspace {input : List Char} {pos : Nat} {c : Char}
    {rest : List Char} (fuel : Nat) (h : input.drop pos = c :: rest)
    (hns : isSpaceTd c = false) (hnn : c ≠ NULc) :
    rwSkip input (fuel + 1) pos = some (some c, pos + 1) := by
  rw [rwSkip.eq_2]
  have hr : r8 input pos = (c, pos + 1) := by
    unfold r8
    rw [h]
  rw [hr]
  dsimp only
  rw [if_neg (by simpa using hnn), if_neg (by simp [hns])]

theorem rwWord_word {input : List Char} (ws : List Char) (sp : List Char)
    (hsp : ∀ c ∈ sp, isSpaceTd c = true) :
    ∀ pos fuel acc, input.drop pos = ws ++ sp →
    (∀ c ∈ ws, isSpaceTd c = false ∧ c ≠ NULc) →
    ws.length + 1 ≤ fuel →
    rwWord input fuel pos acc = some (acc ++ ws, pos + ws.length) := by
  induction ws with
  | nil =>
    intro pos fuel acc h hws hfuel
    obtain ⟨f, rfl⟩ : ∃ f, fuel = f + 1 := ⟨fuel - 1, by omega⟩
    rw [rwWord.eq_2]
    simp only [List.nil_append] at h
    match hc : sp, hsp with
    | [], _ =>
      have hr : r8 input pos = (NULc, pos) := by
        unfold r8
        rw [h]
      rw [hr]
      simp
    | c :: sp2, hsp =>
      have hr : r8 input pos = (c, pos + 1) := by
        unfold r8
        rw [h]
      have hcs := hsp c (by simp)
      rw [hr]
      dsimp only
      rw [if_neg (by simpa using isSpaceTd_ne_nul hcs), if_pos hcs]
      simp
  | cons c ws2 ih =>
    intro pos fuel acc h hws hfuel
    obtain ⟨f, rfl⟩ : ∃ f, fuel = f + 1 := ⟨fuel - 1, by omega⟩
    rw [rwWord.eq_2]
    have hr : r8 input pos = (c, pos + 1) := by
      unfold r8
      rw [h]
      rfl
    have hc := hws c (by simp)
    rw [hr]
    dsimp only
    rw [if_neg (by simpa using hc.2), if_neg (by simp [hc.1])]
    have hdrop2 : input.drop (pos + 1) = ws2 ++ sp := by
      have := congrArg (List.drop 1) h
      rw [List.drop_drop] at this
      simpa using this
    rw [ih (pos + 1) f (acc ++ [c]) hdrop2
        (fun x hx => hws x (by simp [hx])) (by simp at hfuel ⊢; omega)]
    simp
    omega

/-- C7: end-of-stream handling of the fftextdata demuxer's record reader.
If the remaining bytes are only whitespace (so end of stream is reached
while expecting the time token), `fftextdata_read_packet` returns a clean
`AVERROR_EOF` with no warning and no packet.  If a time token is read and
parsed but only whitespace remains (end of stream while expecting the data
token), it returns `AVERROR_EOF` with the warning emitted — the `Bool`
component — and still no packet. -/
theorem c7_textdata_eof_handling (input : List Char) (st : TdState)
    (fuel : Nat) :
    (∀ sp, input.drop st.pos = sp → (∀ c ∈ sp, isSpaceTd c = true) →
      sp.length + 1 ≤ fuel →
      fftextdataReadPacket input fuel st =
        some (AVERROR_EOF, {st with pos := st.pos + sp.length}, none, false)) ∧
    (∀ ws sp t, input.drop st.pos = ws ++ sp → ws ≠ [] →
      (∀ c ∈ ws, isSpaceTd c = false ∧ c ≠ NULc) → parseTime ws = some t →
      (∀ c ∈ sp, isSpaceTd c = true) → ws.length + sp.length + 2 ≤ fuel →
      fftextdataReadPacket input fuel st =
        some (AVERROR_EOF, {st with pos := st.pos + ws.length + sp.length},
              none, true)) := by
  constructor
  · intro sp h hsp hfuel
    unfold fftextdataReadPacket readWord
    rw [rwSkip_spaces_eof sp st.pos fuel h hsp hfuel]
    simp
  · intro ws sp t h hne hws hpt hsp hfuel
    obtain ⟨c, ws2, rfl⟩ : ∃ c ws2, ws = c :: ws2 := by
      cases ws with
      | nil => exact absurd rfl hne
      | cons c ws2 => exact ⟨c, ws2, rfl⟩
    have hdrop : input.drop st.pos = c :: (ws2 ++ sp) := by simpa using h
    obtain ⟨f, rfl⟩ : ∃ f, fuel = f + 1 := ⟨fuel - 1, by omega⟩
    have hskip := rwSkip_nonspace f hdrop (hws c (by simp)).1 (hws c (by simp)).2
    have hdrop2 : input.drop (st.pos + 1) = ws2 ++ sp := by
      have h2 := congrArg (List.drop 1) hdrop
      rw [List.drop_drop] at h2
      simpa using h2
    have hword := rwWord_word ws2 sp hsp (st.pos + 1) (f + 1) [c] hdrop2
      (fun x hx => hws x (by simp [hx])) (by simp at hfuel ⊢; omega)
    have hdropsp : input.drop ((st.pos + 1) + ws2.length) = sp := by
      have h3 := drop_chunk h
      have heq : st.pos + (c :: ws2).length = (st.pos + 1) + ws2.length := by
        simp
        omega
      rw [heq] at h3
      exact h3
    have hskip2 := rwSkip_spaces_eof sp ((st.pos + 1) + ws2.length) (f + 1)
      hdropsp hsp (by simp at hfuel ⊢; omega)
    unfold fftextdataReadPacket readWord readDataTd
    rw [hskip]
    dsimp only
    rw [hword]
    dsimp only
    rw [if_neg (by simp)]
    simp only [List.singleton_append]
    rw [hpt]
    dsimp only
    rw [hskip2]
    dsimp only
    simp only [List.length_nil]
    rw [if_pos trivial]
    have hposeq : ((st.pos + 1) + ws2.length) + sp.length =
        st.pos + (c :: ws2).length + sp.length := by
      simp
      omega
    rw [hposeq]

theorem c7_textdata_eof_handling_witness :
    fftextdataReadPacket (" \n".toList) 3 {} =
      some (AVERROR_EOF, (⟨0, 2⟩ : TdState), none, false) ∧
    fftextdataReadPacket ("1 ".toList) 5 {} =
      some (AVERROR_EOF, (⟨0, 2⟩ : TdState), none, true) :=
  ⟨(c7_textdata_eof_handling (" \n".toList) {} 3).1 (" \n".toList) rfl
      (by decide) (by decide),
   (c7_textdata_eof_handling ("1 ".toList) {} 5).2 ['1'] [' '] 1000000 rfl
      (by decide) (by decide) (by decide) (by decide) (by decide)⟩

/-- C3 (amended): read of a packet section whose line loop ends with a
parsed packet: if a `stream_index` was seen (so the in-loop range check
passed) and the final size is negative (no `data=` block), the decoder
returns the neutral `SEC_NONE` result — no packet and not an error, so
decoding continues with the next section.  An out-of-range
`stream_index=` line, however, is NOT benign: the in-loop range check of
`read_section_packet` fails the whole section with `AVERROR_INVALIDDATA`
at parse time (the spec's claim that it yields "no packet produced, not an
error" is wrong on that input class). -/
theorem c3_amended_dataless_benign_range_fatal (input : List Char)
    (fuel : Nat) (d d2 : DecSt) (p : PPk)
    (hloop : readSectionPacketLoop input fuel {d with dataBuf := []}
      {ppos := (d.pos : Int)} = some (.ok (d2, p))) :
    (p.hasStreamIndex = true → p.psize < 0 →
      readSectionPacket input fuel d = some (SEC_NONE, d2, none) ∧
      ¬((SEC_NONE : Int) < 0)) ∧
    (∀ (nb : Nat) (q : PPk) (v : Int) (buf : List Char),
      scanIntD streamIndexLit buf = .ok v → (v < 0 ∨ (nb : Int) ≤ v) →
      pureLineStep nb q buf = .error AVERROR_INVALIDDATA) := by
  constructor
  · intro hsi hps
    refine ⟨?_, by decide⟩
    unfold readSectionPacket
    dsimp only
    rw [hloop]
    dsimp only
    rw [if_neg (by simp [hsi])]
    rw [if_pos (by simp [hps])]
  · intro nb q v buf hscan hrange
    unfold pureLineStep
    rw [hscan]
    dsimp only
    rw [if_pos (by rcases hrange with h | h <;> simp [h])]

theorem c3_amended_dataless_benign_range_fatal_witness :
    (readSectionPacket ("stream_index=0\n[/PACKET]\n".toList) 5
        ({streams := [{}]} : DecSt) =
      some (SEC_NONE, ({streams := [{}], pos := 25} : DecSt), none) ∧
      ¬((SEC_NONE : Int) < 0)) ∧
    pureLineStep 1 {} ("stream_index=7".toList) = .error AVERROR_INVALIDDATA :=
  ⟨(c3_amended_dataless_benign_range_fatal ("stream_index=0\n[/PACKET]\n".toList)
      5 ({streams := [{}]} : DecSt) ({streams := [{}], pos := 25} : DecSt)
      ⟨0, -1, AV_NOPTS_VALUE, AV_NOPTS_VALUE, 0, 0, true, false, false, false,
       AV_NOPTS_VALUE, AV_NOPTS_VALUE, 0, 0⟩ rfl).1 rfl (by decide),
   (c3_amended_dataless_benign_range_fatal ("stream_index=0\n[/PACKET]\n".toList)
      5 ({streams := [{}]} : DecSt) ({streams := [{}], pos := 25} : DecSt)
      ⟨0, -1, AV_NOPTS_VALUE, AV_NOPTS_VALUE, 0, 0, true, false, false, false,
       AV_NOPTS_VALUE, AV_NOPTS_VALUE, 0, 0⟩ rfl).2 1 {} 7
      ("stream_index=7".toList) rfl (Or.inr (by decide))⟩

/-- C6 (amended): sentinel and override semantics of the `_time` fields.
(A) On a line carrying `<name>_time=N/A` with no co-present raw `<name>=`
match, `PARSE_TIME` marks the `_time` form seen and stores the sentinel —
`0` for durations, `AV_NOPTS_VALUE` otherwise — leaving the raw field
untouched.  (B) On a parseable `<name>_time=` token the parsed
microsecond value is stored.  (C) In the final packet assembly, a seen
`pts_time` whose local value is the sentinel leaves pts at the raw field
(so the unset sentinel when no raw `pts` line ever matched), likewise for
dts; a seen `duration_time` whose local value is `0` leaves duration at
the raw field (so `0` when no raw `duration` line matched); and a seen
non-sentinel `_time` value is authoritative: it is rescaled from
microseconds into the stream's time base by the Timestamp Normalizer,
overriding any co-present raw value.  (The original claim's unconditional
"duration_time=N/A yields 0" is wrong when a raw `duration=` line is also
present — the raw value survives.) -/
theorem c6_amended_time_sentinels_and_override (input : List Char)
    (fuel : Nat) (d d2 : DecSt) (p : PPk)
    (hloop : readSectionPacketLoop input fuel {d with dataBuf := []}
      {ppos := (d.pos : Int)} = some (.ok (d2, p))) :
    (∀ buf rawLit timeLit isDur praw hasT lval,
      scanStr timeLit buf = .ok ("N/A".toList) →
      (∀ v, scanI64 rawLit buf ≠ .ok v) →
      parseTimeField buf rawLit timeLit isDur praw hasT lval =
        .ok (praw, true, if isDur then 0 else AV_NOPTS_VALUE)) ∧
    (∀ buf rawLit timeLit isDur praw hasT lval tok t,
      scanStr timeLit buf = .ok tok → tok ≠ "N/A".toList →
      parseTime tok = some t →
      ∃ praw2, parseTimeField buf rawLit timeLit isDur praw hasT lval =
        .ok (praw2, true, t)) ∧
    (p.hasStreamIndex = true → 0 ≤ p.psize → 0 ≤ p.streamIndex →
      p.streamIndex < (d2.streams.length : Int) →
      ∃ pk, readSectionPacket input fuel d = some (SEC_PACKET, d2, some pk) ∧
        (p.hasPtsTime = true → p.lpts = AV_NOPTS_VALUE →
          p.ppts = AV_NOPTS_VALUE → pk.pts = AV_NOPTS_VALUE) ∧
        (p.hasDtsTime = true → p.ldts = AV_NOPTS_VALUE →
          p.pdts = AV_NOPTS_VALUE → pk.dts = AV_NOPTS_VALUE) ∧
        (p.hasDurationTime = true → p.lduration = 0 →
          p.pduration = 0 → pk.duration = 0) ∧
        (∀ tb, tb = (d2.streams.get? p.streamIndex.toNat).getD {} →
          (p.hasPtsTime = true → p.lpts ≠ AV_NOPTS_VALUE →
            pk.pts = avRescaleQ p.lpts 1 1000000 tb.tbNum tb.tbDen) ∧
          (p.hasDtsTime = true → p.ldts ≠ AV_NOPTS_VALUE →
            pk.dts = avRescaleQ p.ldts 1 1000000 tb.tbNum tb.tbDen) ∧
          (p.hasDurationTime = true → p.lduration ≠ 0 →
            pk.duration = avRescaleQ p.lduration 1 1000000 tb.tbNum tb.tbDen))) := by
  refine ⟨?_, ?_, ?_⟩
  · intro buf rawLit timeLit isDur praw hasT lval hstr hraw
    unfold parseTimeField
    cases hsc : scanI64 rawLit buf with
    | ok v => exact absurd hsc (hraw v)
    | eof =>
      rw [hstr]
      dsimp only
      rw [if_pos rfl]
    | fail =>
      rw [hstr]
      dsimp only
      rw [if_pos rfl]
  · intro buf rawLit timeLit isDur praw hasT lval tok t hstr htok hpt
    unfold parseTimeField
    rw [hstr]
    dsimp only
    rw [if_neg htok, hpt]
    exact ⟨_, rfl⟩
  · intro hsi hps hidx hrange
    refine ⟨assemblePkt d2 p, ?_, ?_, ?_, ?_, ?_⟩
    · unfold readSectionPacket
      dsimp only
      rw [hloop]
      dsimp only
      rw [if_neg (by simp [hsi])]
      rw [if_neg (by simp; omega)]
      rfl
    · intro h1 h2 h3
      simp [assemblePkt, h1, h2, h3]
    · intro h1 h2 h3
      simp [assemblePkt, h1, h2, h3]
    · intro h1 h2 h3
      simp [assemblePkt, h1, h2, h3]
    · intro tb htb
      subst htb
      refine ⟨?_, ?_, ?_⟩
      · intro h1 h2
        simp [assemblePkt, h1, h2]
      · intro h1 h2
        simp [assemblePkt, h1, h2]
      · intro h1 h2
        simp [assemblePkt, h1, h2]

theorem c6_amended_time_sentinels_and_override_witness :
    ∃ pk, readSectionPacket
        ("stream_index=0\npts_time=N/A\nduration_time=0.007\ndata=\n\n[/PACKET]\n".toList)
        20 ({streams := [{tbNum := 1, tbDen := 1000}]} : DecSt) =
      some (SEC_PACKET,
            ({streams := [{tbNum := 1, tbDen := 1000}], pos := 65} : DecSt),
            some pk) ∧
      pk.pts = AV_NOPTS_VALUE ∧ pk.duration = 7 := by
  obtain ⟨pk, h1, h2, h3, h4, h5⟩ :=
    (c6_amended_time_sentinels_and_override
      ("stream_index=0\npts_time=N/A\nduration_time=0.007\ndata=\n\n[/PACKET]\n".toList)
      20 ({streams := [{tbNum := 1, tbDen := 1000}]} : DecSt)
      ({streams := [{tbNum := 1, tbDen := 1000}], pos := 65} : DecSt)
      ⟨0, 0, AV_NOPTS_VALUE, AV_NOPTS_VALUE, 0, 0, true, true, false, true,
       AV_NOPTS_VALUE, AV_NOPTS_VALUE, 7000, 0⟩ rfl).2.2 rfl (by decide)
      (by decide) (by decide)
  refine ⟨pk, h1, h2 rfl rfl rfl, ?_⟩
  have h6 := (h5 _ rfl).2.2 rfl (by decide)
  rw [h6]
  decide
